import Mathlib

/-!
Verification of the DocuStruct field-extraction pipeline (src/app.py).

The development shallowly embeds the parts of the program the claims are
about: the JSON value universe shared by the schema cleaner, the serializer
and the result projector; the submit-time schema dictionary; the extraction
client; the two-page workflow state machine; the result projector modelled
after pandas json_normalize; and a small heap model for the default-field
seeding (aliasing claim).  Python dictionaries are embedded as association
lists with Python's insert-or-update discipline (insertion order preserved,
updating an existing key keeps its position); Python string values are
embedded as Lean strings, and str.strip as ASCII-whitespace trimming on the
character list.
-/

namespace DocuStruct

/-- Universe of JSON-like Python values as produced by json.loads (src/app.py
line 142): None, bools, numbers (restricted to integers in this model),
strings, lists, and string-keyed dicts in insertion order. -/
inductive Json where
  | null
  | bool (b : Bool)
  | num (n : Int)
  | str (s : String)
  | arr (xs : List Json)
  | obj (kvs : List (String × Json))

/-! ### Python dictionary primitive operations (association-list embedding) -/

/-- Python dict assignment d[k] = v: update the value in place when the key
exists (keeping its position), otherwise append the new binding. -/
def dictInsert {α : Type} (d : List (String × α)) (k : String) (v : α) :
    List (String × α) :=
  if d.any (fun p => p.1 = k) then
    d.map (fun p => if p.1 = k then (k, v) else p)
  else d ++ [(k, v)]

/-- Python dict.pop(k, default): remove the binding of k.  Keys of a Python
dict are unique, so removing the first occurrence removes the only one. -/
def dictPop {α : Type} (d : List (String × α)) (k : String) :
    List (String × α) :=
  d.eraseP (fun p => p.1 == k)

/-- Python dict.update(other): assign every binding of other in order. -/
def dictUpdate {α : Type} (d other : List (String × α)) : List (String × α) :=
  other.foldl (fun acc p => dictInsert acc p.1 p.2) d

/-- Python dict lookup d.get(k): value of the first binding of k. -/
def dictGet {α : Type} (d : List (String × α)) (k : String) : Option α :=
  (d.find? (fun p => p.1 = k)).map Prod.snd

/-- Build a dict from a sequence of key/value pairs in order (the semantics
of a Python dict comprehension). -/
def dictOfPairs {α : Type} (l : List (String × α)) : List (String × α) :=
  l.foldl (fun acc p => dictInsert acc p.1 p.2) []

/-! ### Python str.strip (ASCII-whitespace fragment) -/

/-- Whitespace recognized by the embedding of str.strip. -/
def isStripWs (c : Char) : Bool :=
  c = ' ' || c = '\t' || c = '\n' || c = '\r'

/-- Python str.strip(): drop leading and trailing whitespace (src/app.py
line 208 applies it to every field name and description). -/
def pyStrip (s : String) : String :=
  ⟨((s.data.dropWhile isStripWs).reverse.dropWhile isStripWs).reverse⟩

/-! ### clean_schema (src/app.py lines 107-113)

The source pops "additionalProperties" from the current dict and then
rebuilds it by cleaning every value; on lists it cleans every element.  A
Python dict holds each key at most once, so popping the key and cleaning the
remaining entries is embedded as one traversal that skips the popped key. -/

mutual

/-- Embedding of clean_schema: recursively delete every binding of the key
"additionalProperties" from a schema value. -/
def clean_schema : Json → Json
  | .obj kvs => .obj (cleanPairs kvs)
  | .arr xs => .arr (cleanElems xs)
  | s => s

/-- Dict branch of clean_schema: the pop of "additionalProperties" fused
with the value-cleaning comprehension. -/
def cleanPairs : List (String × Json) → List (String × Json)
  | [] => []
  | (k, v) :: rest =>
    if k = "additionalProperties" then cleanPairs rest
    else (k, clean_schema v) :: cleanPairs rest

/-- List branch of clean_schema. -/
def cleanElems : List Json → List Json
  | [] => []
  | x :: rest => clean_schema x :: cleanElems rest

end

/-- Boolean pairwise distinctness of a key list. -/
def keysNodupB : List String → Bool
  | [] => true
  | k :: rest => !(rest.contains k) && keysNodupB rest

mutual

/-- Every dict of the value has pairwise distinct keys (the invariant of
every value that denotes a Python object). -/
def noDupKeys : Json → Bool
  | .obj kvs => keysNodupB (kvs.map Prod.fst) && noDupKeysPairs kvs
  | .arr xs => noDupKeysElems xs
  | _ => true

def noDupKeysPairs : List (String × Json) → Bool
  | [] => true
  | (_, v) :: rest => noDupKeys v && noDupKeysPairs rest

def noDupKeysElems : List Json → Bool
  | [] => true
  | x :: rest => noDupKeys x && noDupKeysElems rest

end

mutual

/-- No dict anywhere in the value binds the key "additionalProperties". -/
def noAddProps : Json → Bool
  | .obj kvs => !((kvs.map Prod.fst).contains "additionalProperties")
      && noAddPropsPairs kvs
  | .arr xs => noAddPropsElems xs
  | _ => true

def noAddPropsPairs : List (String × Json) → Bool
  | [] => true
  | (_, v) :: rest => noAddProps v && noAddPropsPairs rest

def noAddPropsElems : List Json → Bool
  | [] => true
  | x :: rest => noAddProps x && noAddPropsElems rest

end

/-! ### The submit-time schema dictionary (src/app.py line 223)

defs = \x7br['name']: (str, Field(description=r['desc'])) for r in
st.session_state.field_rows if r['name']\x7d, where every row was already
stripped by line 208 during the same script run. -/

/-- The Python type object placed in a field slot; the source always uses
str. -/
inductive PyType where
  | str
deriving DecidableEq

/-- One slot of the dynamic schema: the (type, Field(description=...)) pair
of src/app.py line 223. -/
structure FieldSlot where
  ty : PyType
  description : String
deriving DecidableEq

/-- Strip both components of a field row (src/app.py line 208). -/
def trimRow (r : String × String) : String × String :=
  (pyStrip r.1, pyStrip r.2)

/-- The dict comprehension of src/app.py line 223 over already-stripped
rows: keep rows with a truthy (non-empty) name, each becoming a slot of type
str carrying its description. -/
def buildDefs (rows : List (String × String)) : List (String × FieldSlot) :=
  dictOfPairs ((rows.filter (fun r => r.1 ≠ "")).map
    (fun r => (r.1, FieldSlot.mk .str r.2)))

/-- The schema dictionary built at submit time from the raw field rows:
line 208 strips every row, line 223 filters and builds the dict. -/
def submitDefs (rows : List (String × String)) : List (String × FieldSlot) :=
  buildDefs (rows.map trimRow)

/-- The trimmed rows whose trimmed name is non-empty: the fields the claim
says the schema must consist of. -/
def keptFields (rows : List (String × String)) : List (String × String) :=
  (rows.map trimRow).filter (fun r => r.1 ≠ "")

/-! ### json.dumps with indent=2 (src/app.py line 265)

Python's json.dumps with the default ensure_ascii=True renders every
character outside the printable ASCII range as a \uXXXX escape (a surrogate
pair beyond the basic plane), the short escapes for quote, backslash and the
usual control characters, and \u00XX for the remaining control characters.
With indent=2 every array element and object member starts on its own line,
indented two more spaces than its container, and items are separated by a
comma at the end of the line.  Numbers are restricted to integers in this
model. -/

/-- Lowercase hexadecimal digit, as emitted by Python's \uXXXX escapes. -/
def hexDigitChar (d : Nat) : Char :=
  match d with
  | 0 => '0' | 1 => '1' | 2 => '2' | 3 => '3' | 4 => '4' | 5 => '5'
  | 6 => '6' | 7 => '7' | 8 => '8' | 9 => '9' | 10 => 'a' | 11 => 'b'
  | 12 => 'c' | 13 => 'd' | 14 => 'e' | _ => 'f'

/-- Four-digit lowercase hex rendering of a code unit below 0x10000. -/
def hexQuad (n : Nat) : List Char :=
  [hexDigitChar (n / 4096 % 16), hexDigitChar (n / 256 % 16),
   hexDigitChar (n / 16 % 16), hexDigitChar (n % 16)]

/-- The escape sequence json.dumps emits for one character
(py_encode_basestring_ascii). -/
def escapeChar (c : Char) : List Char :=
  if c = '"' then ['\\', '"']
  else if c = '\\' then ['\\', '\\']
  else if c = '\n' then ['\\', 'n']
  else if c = '\t' then ['\\', 't']
  else if c = '\r' then ['\\', 'r']
  else if c.toNat = 8 then ['\\', 'b']
  else if c.toNat = 12 then ['\\', 'f']
  else if c.toNat < 32 then '\\' :: 'u' :: hexQuad c.toNat
  else if c.toNat < 127 then [c]
  else if c.toNat < 65536 then '\\' :: 'u' :: hexQuad c.toNat
  else
    let m := c.toNat - 65536
    ('\\' :: 'u' :: hexQuad (55296 + m / 1024))
      ++ ('\\' :: 'u' :: hexQuad (56320 + m % 1024))

/-- A double-quoted JSON string literal for s. -/
def dumpStr (s : String) : List Char :=
  '"' :: (s.data.flatMap escapeChar ++ ['"'])

/-- Decimal digit character. -/
def digitChar (d : Nat) : Char :=
  match d with
  | 0 => '0' | 1 => '1' | 2 => '2' | 3 => '3' | 4 => '4'
  | 5 => '5' | 6 => '6' | 7 => '7' | 8 => '8' | _ => '9'

/-- Decimal rendering of a natural number (most significant digit first). -/
def printNat (n : Nat) : List Char :=
  if n = 0 then ['0'] else (Nat.digits 10 n).reverse.map digitChar

/-- Decimal rendering of an integer, as Python repr of an int. -/
def printInt (i : Int) : List Char :=
  if i < 0 then '-' :: printNat i.natAbs else printNat i.natAbs

mutual

/-- json.dumps(·, indent=2) at the given indentation level, as a character
list. -/
def dumpVal : Nat → Json → List Char
  | _, .null => ['n', 'u', 'l', 'l']
  | _, .bool true => ['t', 'r', 'u', 'e']
  | _, .bool false => ['f', 'a', 'l', 's', 'e']
  | _, .num i => printInt i
  | _, .str s => dumpStr s
  | _, .arr [] => ['[', ']']
  | ind, .arr (x :: xs) =>
      '[' :: '\n' :: (List.replicate (ind + 2) ' ' ++ dumpVal (ind + 2) x
        ++ dumpMoreElems (ind + 2) xs
        ++ '\n' :: (List.replicate ind ' ' ++ [']']))
  | _, .obj [] => ['{', '}']
  | ind, .obj ((k, v) :: kvs) =>
      '{' :: '\n' :: (List.replicate (ind + 2) ' ' ++ dumpStr k
        ++ ':' :: ' ' :: dumpVal (ind + 2) v
        ++ dumpMorePairs (ind + 2) kvs
        ++ '\n' :: (List.replicate ind ' ' ++ ['}']))

/-- The remaining array elements, each preceded by a comma, a newline and
the item indentation. -/
def dumpMoreElems : Nat → List Json → List Char
  | _, [] => []
  | ind, x :: xs =>
      ',' :: '\n' :: (List.replicate ind ' ' ++ dumpVal ind x
        ++ dumpMoreElems ind xs)

/-- The remaining object members, each preceded by a comma, a newline and
the item indentation. -/
def dumpMorePairs : Nat → List (String × Json) → List Char
  | _, [] => []
  | ind, (k, v) :: kvs =>
      ',' :: '\n' :: (List.replicate ind ' ' ++ dumpStr k
        ++ ':' :: ' ' :: dumpVal ind v ++ dumpMorePairs ind kvs)

end

/-- json.dumps(j, indent=2). -/
def dumps (j : Json) : String :=
  ⟨dumpVal 0 j⟩

/-! ### json.loads (src/app.py line 142 and the round-trip claim)

A recursive-descent parser for the JSON texts the program handles: the
grammar of json.loads restricted to integer numerals, with \uXXXX escapes
decoded (surrogate pairs recombined; a lone surrogate, unrepresentable in a
Lean Char, is rejected).  Structural recursion is on a fuel counter for the
value grammar and on the input for strings and numbers. -/

/-- Decimal digit test. -/
def isDigitCh (c : Char) : Bool :=
  '0' ≤ c && c ≤ '9'

/-- The input does not continue with a digit (the condition under which a
printed numeral followed by that input parses back unchanged). -/
def noDigitHead : List Char → Bool
  | [] => true
  | c :: _ => !(isDigitCh c)

/-- Skip JSON insignificant whitespace (space, tab, newline, return). -/
def skipWs : List Char → List Char
  | [] => []
  | c :: cs => if isStripWs c then skipWs cs else c :: cs

/-- Numeric value of a decimal digit character. -/
def chDigit (c : Char) : Nat :=
  c.toNat - 48

/-- Parse a nonempty run of decimal digits as a natural number. -/
def parseNatNum (s : List Char) : Option (Nat × List Char) :=
  let ds := s.takeWhile isDigitCh
  if ds.isEmpty then none
  else some (ds.foldl (fun a c => a * 10 + chDigit c) 0, s.dropWhile isDigitCh)

/-- Numeric value of one hexadecimal digit character, if any. -/
def hexDigitVal (c : Char) : Option Nat :=
  if '0' ≤ c && c ≤ '9' then some (c.toNat - 48)
  else if 'a' ≤ c && c ≤ 'f' then some (c.toNat - 87)
  else if 'A' ≤ c && c ≤ 'F' then some (c.toNat - 55)
  else none

/-- Value of four hexadecimal digit characters. -/
def hexQuadVal (a b c d : Char) : Option Nat :=
  match hexDigitVal a, hexDigitVal b, hexDigitVal c, hexDigitVal d with
  | some x, some y, some z, some w => some (((x * 16 + y) * 16 + z) * 16 + w)
  | _, _, _, _ => none

/-- High-surrogate code unit range. -/
def isHighSur (n : Nat) : Bool :=
  55296 ≤ n && n < 56320

/-- Low-surrogate code unit range. -/
def isLowSur (n : Nat) : Bool :=
  56320 ≤ n && n < 57344

mutual

/-- Parse the body of a string literal after the opening quote, returning
the decoded characters and the input after the closing quote. -/
def parseStrTail : List Char → Option (List Char × List Char)
  | [] => none
  | c :: rest =>
    if c = '"' then some ([], rest)
    else if c = '\\' then parseStrEsc rest
    else if c.toNat < 32 then none
    else (parseStrTail rest).map (fun p => (c :: p.1, p.2))

/-- Parse one escape sequence after a backslash, then the rest of the
string body. -/
def parseStrEsc : List Char → Option (List Char × List Char)
  | [] => none
  | e :: rest =>
    if e = '"' then (parseStrTail rest).map (fun p => ('"' :: p.1, p.2))
    else if e = '\\' then (parseStrTail rest).map (fun p => ('\\' :: p.1, p.2))
    else if e = '/' then (parseStrTail rest).map (fun p => ('/' :: p.1, p.2))
    else if e = 'n' then (parseStrTail rest).map (fun p => ('\n' :: p.1, p.2))
    else if e = 't' then (parseStrTail rest).map (fun p => ('\t' :: p.1, p.2))
    else if e = 'r' then (parseStrTail rest).map (fun p => ('\r' :: p.1, p.2))
    else if e = 'b' then
      (parseStrTail rest).map (fun p => (Char.ofNat 8 :: p.1, p.2))
    else if e = 'f' then
      (parseStrTail rest).map (fun p => (Char.ofNat 12 :: p.1, p.2))
    else if e = 'u' then parseUEsc rest
    else none

/-- Parse the four hex digits of a \uXXXX escape, then the rest of the
string body; a high surrogate must be followed by a paired low one. -/
def parseUEsc : List Char → Option (List Char × List Char)
  | a :: b :: c :: d :: rest2 =>
    match hexQuadVal a b c d with
    | none => none
    | some n =>
      if isHighSur n then parseSurPair n rest2
      else if isLowSur n then none
      else (parseStrTail rest2).map (fun p => (Char.ofNat n :: p.1, p.2))
  | _ => none

/-- Parse the low half of a surrogate pair after a high surrogate n and
recombine the two into one character, then the rest of the string body. -/
def parseSurPair : Nat → List Char → Option (List Char × List Char)
  | n, '\\' :: 'u' :: a :: b :: c :: d :: rest3 =>
    match hexQuadVal a b c d with
    | some m =>
      if isLowSur m then
        (parseStrTail rest3).map (fun p =>
          (Char.ofNat (65536 + (n - 55296) * 1024 + (m - 56320)) :: p.1, p.2))
      else none
    | none => none
  | _, _ => none

end

mutual

/-- Parse one JSON value (after whitespace), fuel bounding the nesting. -/
def parseVal : Nat → List Char → Option (Json × List Char)
  | 0, _ => none
  | fuel + 1, input =>
    match skipWs input with
    | [] => none
    | c :: rest =>
      if c = 'n' then
        match rest with
        | 'u' :: 'l' :: 'l' :: r => some (.null, r)
        | _ => none
      else if c = 't' then
        match rest with
        | 'r' :: 'u' :: 'e' :: r => some (.bool true, r)
        | _ => none
      else if c = 'f' then
        match rest with
        | 'a' :: 'l' :: 's' :: 'e' :: r => some (.bool false, r)
        | _ => none
      else if c = '"' then
        (parseStrTail rest).map (fun p => (.str ⟨p.1⟩, p.2))
      else if c = '-' then
        (parseNatNum rest).map (fun p => (.num (-(p.1 : Int)), p.2))
      else if isDigitCh c then
        (parseNatNum (c :: rest)).map (fun p => (.num (p.1 : Int), p.2))
      else if c = '[' then
        match skipWs rest with
        | [] => none
        | c2 :: r =>
          if c2 = ']' then some (.arr [], r)
          else
            match parseVal fuel (c2 :: r) with
            | none => none
            | some (v, r2) =>
              match parseMoreElems fuel r2 with
              | none => none
              | some (vs, r3) => some (.arr (v :: vs), r3)
      else if c = '{' then
        match skipWs rest with
        | [] => none
        | c2 :: r =>
          if c2 = '}' then some (.obj [], r)
          else if c2 = '"' then
            match parseStrTail r with
            | none => none
            | some (k, r2) =>
              match skipWs r2 with
              | [] => none
              | c3 :: r3 =>
                if c3 = ':' then
                  match parseVal fuel r3 with
                  | none => none
                  | some (v, r4) =>
                    match parseMorePairs fuel r4 with
                    | none => none
                    | some (kvs, r5) => some (.obj ((⟨k⟩, v) :: kvs), r5)
                else none
          else none
      else none

/-- After one array element: a comma and a further element, or the closing
bracket. -/
def parseMoreElems : Nat → List Char → Option (List Json × List Char)
  | 0, _ => none
  | fuel + 1, input =>
    match skipWs input with
    | [] => none
    | c :: r =>
      if c = ']' then some ([], r)
      else if c = ',' then
        match parseVal fuel r with
        | none => none
        | some (v, r2) =>
          match parseMoreElems fuel r2 with
          | none => none
          | some (vs, r3) => some (v :: vs, r3)
      else none

/-- After one object member: a comma and a further member, or the closing
brace. -/
def parseMorePairs : Nat → List Char →
    Option (List (String × Json) × List Char)
  | 0, _ => none
  | fuel + 1, input =>
    match skipWs input with
    | [] => none
    | c :: r =>
      if c = '}' then some ([], r)
      else if c = ',' then
        match skipWs r with
        | [] => none
        | c2 :: r2 =>
          if c2 = '"' then
            match parseStrTail r2 with
            | none => none
            | some (k, r3) =>
              match skipWs r3 with
              | [] => none
              | c3 :: r4 =>
                if c3 = ':' then
                  match parseVal fuel r4 with
                  | none => none
                  | some (v, r5) =>
                    match parseMorePairs fuel r5 with
                    | none => none
                    | some (kvs, r6) => some ((⟨k⟩, v) :: kvs, r6)
                else none
          else none
      else none

end

mutual

/-- Structural size of a value, bounding the parser fuel it needs. -/
def sizeJ : Json → Nat
  | .arr xs => 1 + sizeA xs
  | .obj kvs => 1 + sizeO kvs
  | _ => 1

def sizeA : List Json → Nat
  | [] => 1
  | x :: xs => sizeJ x + sizeA xs

def sizeO : List (String × Json) → Nat
  | [] => 1
  | (_, v) :: kvs => sizeJ v + sizeO kvs

end

/-- json.loads: parse the whole text as one JSON value, rejecting trailing
garbage. -/
def loads (s : String) : Option Json :=
  match parseVal (s.data.length + 1) s.data with
  | some (j, rest) => if skipWs rest = [] then some j else none
  | none => none

/-! ### The results view's data value (src/app.py line 233)

data = st.session_state.result or \x7b\x7d: a stored result that is falsy in
Python (empty dict, empty list, zero, empty string, False, or None itself)
is replaced by the empty dict before both the JSON download (line 265) and
the tabular projection (line 234). -/

/-- Python truthiness of a JSON-like value. -/
def pyTruthy : Json → Bool
  | .null => false
  | .bool b => b
  | .num n => n ≠ 0
  | .str s => s ≠ ""
  | .arr xs => !xs.isEmpty
  | .obj kvs => !kvs.isEmpty

/-- The value named data at src/app.py line 233, from the stored result
(none embeds Python None). -/
def resultData (result : Option Json) : Json :=
  match result with
  | none => .obj []
  | some j => if pyTruthy j then j else .obj []

/-- The text offered by the JSON download button (src/app.py line 265):
json.dumps(data, indent=2). -/
def downloadJSON (result : Option Json) : String :=
  dumps (resultData result)

/-! ### The result projector (src/app.py line 234)

pd.json_normalize(data, sep=un underscore), modelled from pandas'
documented flattening (nested_to_record): one record per input mapping, a
copy of each record in which every dict-valued key is popped and replaced,
at the end, by its recursively flattened entries under compound names
joined with the separator; at nesting level zero plain keys keep their
position, deeper keys are popped and re-appended under their compound
name.  The resulting DataFrame has one row per record and the union of the
record keys as columns, in order of first appearance; a key missing from a
record is a missing value (NaN, rendered empty in the CSV export). -/

/-- One pass of pandas nested_to_record over the items of one record:
level is the nesting depth, pre the compound-name prefix, new_d the
record being rewritten. -/
def n2rGo (level : Nat) (pre : String) :
    List (String × Json) → List (String × Json) → List (String × Json)
  | [], new_d => new_d
  | (k, v) :: items, new_d =>
    let newkey := if level == 0 then k else pre ++ "_" ++ k
    match v with
    | .obj kvs =>
      n2rGo level pre items
        (dictUpdate (dictPop new_d k) (n2rGo (level + 1) newkey kvs kvs))
    | _ =>
      if level == 0 then n2rGo level pre items new_d
      else n2rGo level pre items (dictInsert (dictPop new_d k) newkey v)

/-- Flatten one record (pandas nested_to_record at level zero). -/
def flattenRecord (kvs : List (String × Json)) : List (String × Json) :=
  n2rGo 0 "" kvs kvs

/-- The flat records json_normalize derives from a list input: every
element must be a mapping (anything else raises). -/
def recordsOfList : List Json → Option (List (List (String × Json)))
  | [] => some []
  | .obj kvs :: rest =>
    (recordsOfList rest).map (fun rs => flattenRecord kvs :: rs)
  | _ => none

/-- The flat records json_normalize derives from its input: a dict is a
single record, a list contributes one record per element. -/
def recordsFor : Json → Option (List (List (String × Json)))
  | .obj kvs => some [flattenRecord kvs]
  | .arr xs => recordsOfList xs
  | _ => none

/-- Keep the first occurrence of every column name, in order. -/
def dedupFirst : List String → List String
  | [] => []
  | x :: xs => x :: (dedupFirst xs).filter (fun y => y ≠ x)

/-- The tabular view: column names and one cell row per record, a missing
cell (pandas NaN, rendered empty on export) being none. -/
structure Table where
  cols : List String
  cells : List (List (Option Json))

/-- Build the DataFrame from the flat records: columns are the union of
the record keys in order of first appearance, cells are looked up per
record. -/
def mkTable (records : List (List (String × Json))) : Table :=
  let cols := dedupFirst (records.flatMap (fun r => r.map Prod.fst))
  ⟨cols, records.map (fun r => cols.map (fun c => dictGet r c))⟩

/-- pd.json_normalize(data, sep=un underscore) as a table, none when
pandas would raise. -/
def json_normalize (data : Json) : Option Table :=
  (recordsFor data).map mkTable

/-- The projector applied to a stored extraction result, through the
data = result or \x7b\x7d substitution of src/app.py line 233. -/
def projectResult (result : Json) : Option Table :=
  json_normalize (resultData (some result))

/-! ### The extraction client (src/app.py lines 133-142) -/

/-- The instruction prompt chosen at src/app.py line 134: the form prompt
exactly when the document type is "Form", the receipt prompt otherwise. -/
def promptFor (dtype : String) : String :=
  if dtype == "Form" then "Extract all form fields as JSON."
  else "Extract receipt details as JSON."

/-- Modelled from pydantic's documented model_json_schema output for
create_model('DynamicSchema', **defs) (src/app.py line 224): an object
schema whose properties are string-typed slots carrying the field
descriptions, every field required. -/
def model_json_schema (defs : List (String × FieldSlot)) : Json :=
  .obj [("properties", .obj (defs.map (fun kv =>
          (kv.1, .obj [("description", .str kv.2.description),
                       ("type", .str "string")])))),
        ("required", .arr (defs.map (fun kv => .str kv.1))),
        ("title", .str "DynamicSchema"),
        ("type", .str "object")]

/-- A failure of the extraction client: an exception raised by the remote
call (upload or generation), or a response body that json.loads rejects. -/
inductive ExtractErr where
  | service (msg : String)
  | malformedResponse

/-- The remote service as an oracle: from the instruction prompt and the
cleaned response schema to either an exception message or the raw response
text. -/
def RemoteOracle : Type :=
  String → Json → Except String String

/-- Embedding of extract_structured (src/app.py lines 133-142): choose the
prompt from the document type, clean the dynamic model's JSON schema, make
the single remote call, and parse the response text as JSON.  An exception
anywhere surfaces as the error value; a response body that is not valid
JSON is a parse failure. -/
def extract_structured (oracle : RemoteOracle) (dtype : String)
    (defs : List (String × FieldSlot)) : Except ExtractErr Json :=
  match oracle (promptFor dtype) (clean_schema (model_json_schema defs)) with
  | .error msg => .error (.service msg)
  | .ok text =>
    match loads text with
    | some j => .ok j
    | none => .error .malformedResponse

/-! ### The workflow state machine (src/app.py lines 144-229)

Session state: page ('upload' for the configure view, 'results' for the
review view), the stored temporary file path, the stored result (none is
Python None), the selected document type and the field rows.  The stored
result after a successful extraction is the parsed response; a response
text "null" parses to Python None, embedded here as none. -/

/-- The built-in preset catalog (src/app.py lines 87-104), as ordered
name/description pairs. -/
def BUILTIN_FIELDS (name : String) : Option (List (String × String)) :=
  if name = "Form" then
    some [("first_name", "User’s given name"),
          ("last_name", "User’s family name"),
          ("date_of_birth", "Date of birth in DD/MM/YYYY"),
          ("address", "Full mailing address"),
          ("phone_number", "Primary contact phone number"),
          ("gender", "User’s gender (e.g. Male, Female, Other)")]
  else if name = "Receipt" then
    some [("merchant_name", "Name of store or vendor"),
          ("transaction_date", "Date of purchase (DD/MM/YYYY)"),
          ("total_amount", "Grand total charged"),
          ("tax_amount", "Total tax applied"),
          ("payment_method", "Method of payment (e.g. Visa, Cash)"),
          ("items", "Line‐items purchased with price and qty")]
  else none

/-- The per-session state (src/app.py lines 144-162). -/
structure SessionState where
  page : String
  file_path : Option String
  result : Option Json
  doc_type : String
  field_rows : List (String × String)

/-- The initial session state: configure page, no document, no result,
the Form preset seeded (src/app.py lines 145-162). -/
def initState : SessionState :=
  { page := "upload", file_path := none, result := none, doc_type := "Form",
    field_rows := (BUILTIN_FIELDS "Form").getD [] }

/-- The parsed response as stored into st.session_state.result: JSON null
is Python None. -/
def pyStore (j : Json) : Option Json :=
  match j with
  | .null => none
  | _ => some j

/-- What the Extract Data click reports: a validation message shown with
st.error, or an uncaught extraction exception propagated to the framework
boundary, or success. -/
inductive AppError where
  | validation (msg : String)
  | remoteFailure (msg : String)
  | malformedResponse

/-- Whether an error is a failure of the extraction client rather than a
precondition violation. -/
def isClientError : AppError → Bool
  | .validation _ => false
  | _ => true

/-- The ExtractErr of the client as it leaves the handler uncaught. -/
def liftErr : ExtractErr → AppError
  | .service msg => .remoteFailure msg
  | .malformedResponse => .malformedResponse

/-- Embedding of the Extract Data click (src/app.py lines 201-229): the
rows were stripped at line 208 earlier in the same script run; then the
handler refuses without a file (line 218) or without any non-empty field
name (line 220).  Line 218 is a truthiness test on file_path; file_path is
either None or a NamedTemporaryFile name (never the empty string), so the
none-test is its faithful embedding on the reachable states.  Otherwise
the handler builds the schema dict, calls the client,
stores the result, and switches to the results page.  A client exception
leaves result and page untouched (the failing statement is the assignment
at line 225, reached before either mutation). -/
def extractClick (oracle : RemoteOracle) (s : SessionState) :
    SessionState × Except AppError Unit :=
  let rows := s.field_rows.map trimRow
  let s1 := { s with field_rows := rows }
  if s1.file_path = none then
    (s1, .error (.validation "Upload a file first."))
  else if !(rows.any (fun r => r.1 ≠ "")) then
    (s1, .error (.validation "Add at least one field."))
  else
    match extract_structured oracle s1.doc_type (buildDefs rows) with
    | .error e => (s1, .error (liftErr e))
    | .ok j => ({ s1 with result := pyStore j, page := "results" }, .ok ())

/-- A user action on the app, with the remote outcome attached to the
extraction click. -/
inductive Event where
  | selectPreset (name : String)
  | uploadFile (path : String)
  | editField (i : Nat) (name desc : String)
  | addField
  | removeField (i : Nat)
  | resetFields
  | extractData (oracle : RemoteOracle)
  | processAnother

/-- One step of the workflow: the configure-page widgets exist only on the
upload page, the reset button only on the results page; anything else
leaves the state unchanged (src/app.py lines 165-283). -/
def step (s : SessionState) (e : Event) : SessionState :=
  match e with
  | .selectPreset name =>
    if s.page = "upload" then
      match BUILTIN_FIELDS name with
      | some defaults => { s with doc_type := name, field_rows := defaults }
      | none => s
    else s
  | .uploadFile path =>
    if s.page = "upload" then { s with file_path := some path } else s
  | .editField i name desc =>
    if s.page = "upload" then
      { s with field_rows := s.field_rows.set i (pyStrip name, pyStrip desc) }
    else s
  | .addField =>
    if s.page = "upload" then
      { s with field_rows := s.field_rows ++ [("", "")] }
    else s
  | .removeField i =>
    if s.page = "upload" then
      { s with field_rows := s.field_rows.eraseIdx i }
    else s
  | .resetFields =>
    if s.page = "upload" then
      match BUILTIN_FIELDS s.doc_type with
      | some defaults => { s with field_rows := defaults }
      | none => s
    else s
  | .extractData oracle =>
    if s.page = "upload" then (extractClick oracle s).1 else s
  | .processAnother =>
    if s.page = "results" then initState else s

/-- Run a sequence of user actions from the initial state. -/
def runTrace (events : List Event) : SessionState :=
  events.foldl step initState

/-- An extraction event whose remote outcome, if it succeeds, is not the
JSON text null (the only response whose parse stores Python None). -/
def eventOk : Event → Prop
  | .extractData oracle =>
    ∀ prompt schema text, oracle prompt schema = .ok text →
      loads text ≠ some .null
  | _ => True

/-! ### The default-field seeding, with aliasing made observable
(src/app.py lines 87-104 and 155-159)

on_doc_type_change builds the field rows as a list comprehension of fresh
two-entry dicts over the catalog entries of the selected preset.  To state
the no-aliasing claim, dict objects live in an addressed store: the two
catalog dicts occupy addresses 0 and 1, fresh dicts are allocated at the
allocation pointer, and a caller mutation is a write to an address it
received.  Python list mutation of the returned list itself is value-level
and cannot touch the store. -/

/-- The heap of dict objects: an allocation pointer and the contents of
every allocated address. -/
structure Store where
  nextAddr : Nat
  mem : List (Nat × List (String × String))

/-- Address of a preset's catalog dict inside BUILTIN_FIELDS. -/
def catalogAddr (name : String) : Option Nat :=
  if name = "Form" then some 0
  else if name = "Receipt" then some 1 else none

/-- The store at module initialization: the two catalog dicts. -/
def initStore : Store :=
  { nextAddr := 2,
    mem := [(0, (BUILTIN_FIELDS "Form").getD []),
            (1, (BUILTIN_FIELDS "Receipt").getD [])] }

/-- Read the dict at an address. -/
def storeRead (σ : Store) (a : Nat) : Option (List (String × String)) :=
  (σ.mem.find? (fun p => p.1 = a)).map Prod.snd

/-- Mutate the dict at an address (any Python-level dict mutation is a
write of the resulting contents). -/
def storeWrite (σ : Store) (a : Nat) (d : List (String × String)) : Store :=
  { σ with mem := σ.mem.map (fun p => if p.1 = a then (a, d) else p) }

/-- Allocate a list of fresh dicts, returning their addresses in order. -/
def allocRows (σ : Store) : List (List (String × String)) →
    Store × List Nat
  | [] => (σ, [])
  | d :: ds =>
    let σ1 : Store := { nextAddr := σ.nextAddr + 1,
                        mem := σ.mem ++ [(σ.nextAddr, d)] }
    let (σ2, addrs) := allocRows σ1 ds
    (σ2, σ.nextAddr :: addrs)

/-- The row-dict contents on_doc_type_change builds for a preset: one
fresh \x7b"name": k, "desc": v\x7d dict per catalog entry. -/
def rowContents (entries : List (String × String)) :
    List (List (String × String)) :=
  entries.map (fun kv => [("name", kv.1), ("desc", kv.2)])

/-- Embedding of the seeding of default fields (on_doc_type_change,
src/app.py lines 155-159): read the preset's catalog dict and allocate a
fresh row dict per entry; unknown presets raise KeyError (none). -/
def seedDefaults (σ : Store) (name : String) :
    Option (Store × List Nat) :=
  match catalogAddr name with
  | none => none
  | some a =>
    match storeRead σ a with
    | none => none
    | some entries => some (allocRows σ (rowContents entries))

/-- The row contents a seedDefaults call on this store would copy for the
preset: the observable the aliasing claim compares across mutations. -/
def seedContents (σ : Store) (name : String) :
    Option (List (List (String × String))) :=
  match catalogAddr name with
  | none => none
  | some a => (storeRead σ a).map rowContents

/-- Read back a list of row addresses. -/
def readRows (σ : Store) (addrs : List Nat) :
    List (Option (List (String × String))) :=
  addrs.map (storeRead σ)

/-- Apply a sequence of caller mutations to the store. -/
def applyWrites (σ : Store) (ws : List (Nat × List (String × String))) :
    Store :=
  ws.foldl (fun acc w => storeWrite acc w.1 w.2) σ

/-- The extraction client fails on this state: the remote call raises, or
its response body is not valid JSON. -/
def clientFails (oracle : RemoteOracle) (s : SessionState) : Prop :=
  match oracle (promptFor s.doc_type)
      (clean_schema (model_json_schema (buildDefs (s.field_rows.map trimRow)))) with
  | .error _ => True
  | .ok text => loads text = none

/-- Every allocated address is below the allocation pointer. -/
def storeWF (σ : Store) : Prop :=
  ∀ p ∈ σ.mem, p.1 < σ.nextAddr

/-! ## Lemmas and claim theorems -/

/-- Well-founded induction principle for the nested Json type: to prove a
property everywhere it is enough to prove it at each constructor given it on
all array elements and all object values. -/
theorem Json.recurse (P : Json → Prop)
    (hnull : P .null)
    (hbool : ∀ b, P (.bool b))
    (hnum : ∀ n, P (.num n))
    (hstr : ∀ s, P (.str s))
    (harr : ∀ xs, (∀ x ∈ xs, P x) → P (.arr xs))
    (hobj : ∀ kvs, (∀ kv ∈ kvs, P kv.2) → P (.obj kvs)) :
    ∀ j, P j := by
  intro j
  induction j using WellFounded.induction (r := fun a b : Json => sizeOf a < sizeOf b)
    (InvImage.wf sizeOf Nat.lt_wfRel.wf) with
  | _ j ih =>
    cases j with
    | null => exact hnull
    | bool b => exact hbool b
    | num n => exact hnum n
    | str s => exact hstr s
    | arr xs =>
      refine harr xs (fun x hx => ih x ?_)
      have h1 := List.sizeOf_lt_of_mem hx
      have h2 : sizeOf (Json.arr xs) = 1 + sizeOf xs := by simp
      omega
    | obj kvs =>
      refine hobj kvs (fun kv hkv => ih kv.2 ?_)
      have h1 := List.sizeOf_lt_of_mem hkv
      have h2 : sizeOf kv.2 < sizeOf kv := by
        obtain ⟨a, b⟩ := kv; simp
      have h3 : sizeOf (Json.obj kvs) = 1 + sizeOf kvs := by simp
      omega

theorem char_toNat_valid (c : Char) :
    c.toNat < 55296 ∨ (57343 < c.toNat ∧ c.toNat < 1114112) := by
  have h := c.valid
  have he : c.toNat = c.val.toNat := rfl
  unfold Nat.isValidChar at h
  rcases h with h | ⟨h1, h2⟩
  · left; omega
  · right; omega

/-! Whitespace-skipping lemmas. -/

theorem skipWs_ws_cons (c : Char) (h : isStripWs c = true) (s : List Char) :
    skipWs (c :: s) = skipWs s := by
  simp [skipWs, h]

theorem skipWs_not_ws_cons (c : Char) (h : isStripWs c = false) (s : List Char) :
    skipWs (c :: s) = c :: s := by
  simp [skipWs, h]

theorem skipWs_replicate_space (n : Nat) (s : List Char) :
    skipWs (List.replicate n ' ' ++ s) = skipWs s := by
  induction n with
  | zero => simp
  | succ n ih =>
    rw [List.replicate_succ, List.cons_append, skipWs_ws_cons _ (by decide), ih]

theorem skipWs_newline_indent (n : Nat) (s : List Char) :
    skipWs ('\n' :: (List.replicate n ' ' ++ s)) = skipWs s := by
  rw [skipWs_ws_cons _ (by decide), skipWs_replicate_space]

/-! Digit lemmas. -/

theorem digitChar_isDigit (d : Nat) : isDigitCh (digitChar d) = true := by
  unfold digitChar
  split <;> decide

theorem chDigit_digitChar (d : Nat) (h : d < 10) :
    chDigit (digitChar d) = d := by
  interval_cases d <;> decide

theorem printNat_all_digits (n : Nat) :
    ∀ c ∈ printNat n, isDigitCh c = true := by
  intro c hc
  unfold printNat at hc
  split at hc
  · simp at hc; subst hc; decide
  · simp at hc
    obtain ⟨d, _, rfl⟩ := hc
    exact digitChar_isDigit d

theorem printNat_ne_nil (n : Nat) : printNat n ≠ [] := by
  unfold printNat
  split
  · simp
  · simp
    intro hcon
    exact absurd (Nat.digits_eq_nil_iff_eq_zero.mp hcon) (by assumption)

theorem digits_run_split (l s : List Char)
    (hl : ∀ c ∈ l, isDigitCh c = true) (hs : noDigitHead s = true) :
    (l ++ s).takeWhile isDigitCh = l ∧ (l ++ s).dropWhile isDigitCh = s := by
  induction l with
  | nil =>
    cases s with
    | nil => simp
    | cons c cs =>
      simp only [noDigitHead] at hs
      simp only [List.nil_append, List.takeWhile_cons, List.dropWhile_cons]
      simp [Bool.not_eq_true] at hs
      simp [hs]
  | cons c l ih =>
    have hc := hl c (by simp)
    have hrest := ih (fun x hx => hl x (by simp [hx]))
    simp only [List.cons_append, List.takeWhile_cons, List.dropWhile_cons, hc]
    simp [hrest.1, hrest.2]

theorem foldl_digit_chars (l : List Nat) (hl : ∀ d ∈ l, d < 10) (a : Nat) :
    (l.reverse.map digitChar).foldl (fun x c => x * 10 + chDigit c) a
      = a * 10 ^ l.length + Nat.ofDigits 10 l := by
  induction l generalizing a with
  | nil => simp [Nat.ofDigits]
  | cons d l ih =>
    have hd : chDigit (digitChar d) = d := chDigit_digitChar d (hl d (by simp))
    rw [List.reverse_cons, List.map_append, List.foldl_append,
      ih (fun x hx => hl x (by simp [hx])) a]
    simp [Nat.ofDigits_cons, hd]
    ring

theorem parseNatNum_printNat (n : Nat) (rest : List Char)
    (h : noDigitHead rest = true) :
    parseNatNum (printNat n ++ rest) = some (n, rest) := by
  have hsplit := digits_run_split (printNat n) rest (printNat_all_digits n) h
  unfold parseNatNum
  rw [hsplit.1, hsplit.2]
  simp [List.isEmpty_eq_true, printNat_ne_nil n]
  unfold printNat
  split
  · subst n; decide
  · rw [foldl_digit_chars _ (fun d hd => Nat.digits_lt_base (by norm_num) hd) 0]
    simp [Nat.ofDigits_digits]

/-! Hexadecimal escape lemmas. -/

theorem hexDigitVal_hexDigitChar (d : Nat) (h : d < 16) :
    hexDigitVal (hexDigitChar d) = some d := by
  interval_cases d <;> decide

theorem hexQuadVal_hexQuad (n : Nat) (h : n < 65536) :
    hexQuadVal (hexDigitChar (n / 4096 % 16)) (hexDigitChar (n / 256 % 16))
      (hexDigitChar (n / 16 % 16)) (hexDigitChar (n % 16)) = some n := by
  unfold hexQuadVal
  rw [hexDigitVal_hexDigitChar _ (by omega), hexDigitVal_hexDigitChar _ (by omega),
    hexDigitVal_hexDigitChar _ (by omega), hexDigitVal_hexDigitChar _ (by omega)]
  simp
  omega

/-! String-body round trip: parsing inverts the per-character escaping. -/

theorem hexQuad_eq (n : Nat) :
    hexQuad n = [hexDigitChar (n / 4096 % 16), hexDigitChar (n / 256 % 16),
      hexDigitChar (n / 16 % 16), hexDigitChar (n % 16)] := rfl

theorem st_quote (s : List Char) : parseStrTail ('"' :: s) = some ([], s) := rfl

theorem st_bslash (s : List Char) : parseStrTail ('\\' :: s) = parseStrEsc s := rfl

theorem st_plain (c : Char) (s : List Char) (h1 : ¬ c = '"') (h2 : ¬ c = '\\')
    (h3 : ¬ c.toNat < 32) :
    parseStrTail (c :: s) = (parseStrTail s).map (fun p => (c :: p.1, p.2)) := by
  simp only [parseStrTail]
  rw [if_neg h1, if_neg h2, if_neg h3]

theorem esc_quote (s : List Char) :
    parseStrEsc ('"' :: s) = (parseStrTail s).map (fun p => ('"' :: p.1, p.2)) := rfl

theorem esc_bslash (s : List Char) :
    parseStrEsc ('\\' :: s) = (parseStrTail s).map (fun p => ('\\' :: p.1, p.2)) := rfl

theorem esc_n (s : List Char) :
    parseStrEsc ('n' :: s) = (parseStrTail s).map (fun p => ('\n' :: p.1, p.2)) := rfl

theorem esc_t (s : List Char) :
    parseStrEsc ('t' :: s) = (parseStrTail s).map (fun p => ('\t' :: p.1, p.2)) := rfl

theorem esc_r (s : List Char) :
    parseStrEsc ('r' :: s) = (parseStrTail s).map (fun p => ('\x0d' :: p.1, p.2)) := rfl

theorem esc_b (s : List Char) :
    parseStrEsc ('b' :: s)
      = (parseStrTail s).map (fun p => (Char.ofNat 8 :: p.1, p.2)) := rfl

theorem esc_f (s : List Char) :
    parseStrEsc ('f' :: s)
      = (parseStrTail s).map (fun p => (Char.ofNat 12 :: p.1, p.2)) := rfl

theorem parse_u_single (a b c d : Char) (n : Nat) (t : List Char)
    (hq : hexQuadVal a b c d = some n) (hhi : isHighSur n = false)
    (hlo : isLowSur n = false) :
    parseStrTail ('\\' :: 'u' :: a :: b :: c :: d :: t)
      = (parseStrTail t).map (fun p => (Char.ofNat n :: p.1, p.2)) := by
  rw [st_bslash]
  simp only [parseStrEsc, parseUEsc, hq, hhi, hlo]
  simp

theorem parse_u_pair (a b c d a2 b2 c2 d2 : Char) (n m : Nat) (t : List Char)
    (hq : hexQuadVal a b c d = some n) (hhi : isHighSur n = true)
    (hq2 : hexQuadVal a2 b2 c2 d2 = some m) (hlo : isLowSur m = true) :
    parseStrTail ('\\' :: 'u' :: a :: b :: c :: d
        :: '\\' :: 'u' :: a2 :: b2 :: c2 :: d2 :: t)
      = (parseStrTail t).map (fun p =>
          (Char.ofNat (65536 + (n - 55296) * 1024 + (m - 56320)) :: p.1, p.2))
      := by
  rw [st_bslash]
  simp only [parseStrEsc, parseUEsc, hq, hhi, parseSurPair, hq2, hlo]
  simp

theorem parseStrTail_escapeChar (c : Char) (t : List Char) :
    parseStrTail (escapeChar c ++ t)
      = (parseStrTail t).map (fun p => (c :: p.1, p.2)) := by
  have hv := char_toNat_valid c
  by_cases h1 : c = '"'
  · subst h1
    rw [show escapeChar '"' = ['\\', '"'] from rfl]
    simp only [List.cons_append, List.nil_append, st_bslash, esc_quote]
  by_cases h2 : c = '\\'
  · subst h2
    rw [show escapeChar '\\' = ['\\', '\\'] from rfl]
    simp only [List.cons_append, List.nil_append, st_bslash, esc_bslash]
  by_cases h3 : c = '\n'
  · subst h3
    rw [show escapeChar '\n' = ['\\', 'n'] from rfl]
    simp only [List.cons_append, List.nil_append, st_bslash, esc_n]
  by_cases h4 : c = '\t'
  · subst h4
    rw [show escapeChar '\t' = ['\\', 't'] from rfl]
    simp only [List.cons_append, List.nil_append, st_bslash, esc_t]
  by_cases h5 : c = '\x0d'
  · subst h5
    rw [show escapeChar '\x0d' = ['\\', 'r'] from rfl]
    simp only [List.cons_append, List.nil_append, st_bslash, esc_r]
  by_cases h6 : c.toNat = 8
  · have hc : Char.ofNat 8 = c := by rw [← h6, Char.ofNat_toNat]
    have hesc : escapeChar c = ['\\', 'b'] := by
      unfold escapeChar
      rw [if_neg h1, if_neg h2, if_neg h3, if_neg h4, if_neg h5, if_pos h6]
    rw [hesc]
    simp only [List.cons_append, List.nil_append, st_bslash, esc_b, hc]
  by_cases h7 : c.toNat = 12
  · have hc : Char.ofNat 12 = c := by rw [← h7, Char.ofNat_toNat]
    have hesc : escapeChar c = ['\\', 'f'] := by
      unfold escapeChar
      rw [if_neg h1, if_neg h2, if_neg h3, if_neg h4, if_neg h5, if_neg h6,
        if_pos h7]
    rw [hesc]
    simp only [List.cons_append, List.nil_append, st_bslash, esc_f, hc]
  by_cases h8 : c.toNat < 32
  · have hesc : escapeChar c = '\\' :: 'u' :: hexQuad c.toNat := by
      unfold escapeChar
      rw [if_neg h1, if_neg h2, if_neg h3, if_neg h4, if_neg h5, if_neg h6,
        if_neg h7, if_pos h8]
    have hhi : isHighSur c.toNat = false := by
      simp [isHighSur]; omega
    have hlo : isLowSur c.toNat = false := by
      simp [isLowSur]; omega
    rw [hesc, hexQuad_eq]
    simp only [List.cons_append, List.nil_append]
    rw [parse_u_single _ _ _ _ _ _
      (hexQuadVal_hexQuad _ (by omega : c.toNat < 65536)) hhi hlo,
      Char.ofNat_toNat]
  by_cases h9 : c.toNat < 127
  · have hesc : escapeChar c = [c] := by
      unfold escapeChar
      rw [if_neg h1, if_neg h2, if_neg h3, if_neg h4, if_neg h5, if_neg h6,
        if_neg h7, if_neg h8, if_pos h9]
    rw [hesc, List.singleton_append, st_plain c _ h1 h2 h8]
  by_cases h10 : c.toNat < 65536
  · have hesc : escapeChar c = '\\' :: 'u' :: hexQuad c.toNat := by
      unfold escapeChar
      rw [if_neg h1, if_neg h2, if_neg h3, if_neg h4, if_neg h5, if_neg h6,
        if_neg h7, if_neg h8, if_neg h9, if_pos h10]
    have hhi : isHighSur c.toNat = false := by
      simp [isHighSur]; omega
    have hlo : isLowSur c.toNat = false := by
      simp [isLowSur]; omega
    rw [hesc, hexQuad_eq]
    simp only [List.cons_append, List.nil_append]
    rw [parse_u_single _ _ _ _ _ _ (hexQuadVal_hexQuad _ h10) hhi hlo,
      Char.ofNat_toNat]
  · have hesc : escapeChar c
        = ('\\' :: 'u' :: hexQuad (55296 + (c.toNat - 65536) / 1024))
          ++ ('\\' :: 'u' :: hexQuad (56320 + (c.toNat - 65536) % 1024)) := by
      unfold escapeChar
      rw [if_neg h1, if_neg h2, if_neg h3, if_neg h4, if_neg h5, if_neg h6,
        if_neg h7, if_neg h8, if_neg h9, if_neg h10]
    have hhi : isHighSur (55296 + (c.toNat - 65536) / 1024) = true := by
      simp [isHighSur]; omega
    have hlo : isLowSur (56320 + (c.toNat - 65536) % 1024) = true := by
      simp [isLowSur]; omega
    rw [hesc, hexQuad_eq, hexQuad_eq]
    simp only [List.cons_append, List.nil_append, List.append_assoc]
    rw [parse_u_pair _ _ _ _ _ _ _ _ _ _ _
      (hexQuadVal_hexQuad _ (by omega : 55296 + (c.toNat - 65536) / 1024 < 65536))
      hhi
      (hexQuadVal_hexQuad _ (by omega : 56320 + (c.toNat - 65536) % 1024 < 65536))
      hlo]
    have harith : 65536 + (55296 + (c.toNat - 65536) / 1024 - 55296) * 1024
        + (56320 + (c.toNat - 65536) % 1024 - 56320) = c.toNat := by
      omega
    rw [harith, Char.ofNat_toNat]

theorem parseStrTail_escape (l : List Char) (rest : List Char) :
    parseStrTail (l.flatMap escapeChar ++ ('"' :: rest)) = some (l, rest) := by
  induction l with
  | nil => simp [st_quote]
  | cons c l ih =>
    rw [List.flatMap_cons, List.append_assoc, parseStrTail_escapeChar, ih]
    rfl

/-! One-step characterizations of the value parser, each under explicit
hypotheses about the whitespace-skipped input. -/

theorem digit_not (c : Char) (hc : isDigitCh c = true) (d : Char)
    (hd : isDigitCh d = false) : ¬ c = d := by
  intro h
  subst h
  rw [hc] at hd
  exact absurd hd (by simp)

theorem digit_facts (c : Char) (hc : isDigitCh c = true) :
    ¬ c = 'n' ∧ ¬ c = 't' ∧ ¬ c = 'f' ∧ ¬ c = '"' ∧ ¬ c = '-'
      ∧ ¬ c = '[' ∧ ¬ c = '{' ∧ isStripWs c = false ∧ ¬ c = ']'
      ∧ ¬ c = '}' ∧ ¬ c = ',' := by
  have hws : isStripWs c = false := by
    have w1 := digit_not c hc ' ' (by decide)
    have w2 := digit_not c hc '\t' (by decide)
    have w3 := digit_not c hc '\n' (by decide)
    have w4 := digit_not c hc '\x0d' (by decide)
    simp [isStripWs, w1, w2, w3, w4]
  exact ⟨digit_not c hc 'n' (by decide), digit_not c hc 't' (by decide),
    digit_not c hc 'f' (by decide), digit_not c hc '"' (by decide),
    digit_not c hc '-' (by decide), digit_not c hc '[' (by decide),
    digit_not c hc '{' (by decide), hws, digit_not c hc ']' (by decide),
    digit_not c hc '}' (by decide), digit_not c hc ',' (by decide)⟩

theorem pv_null (fuel : Nat) (s r : List Char)
    (h : skipWs s = 'n' :: 'u' :: 'l' :: 'l' :: r) :
    parseVal (fuel + 1) s = some (.null, r) := by
  simp only [parseVal, h]
  simp

theorem pv_true (fuel : Nat) (s r : List Char)
    (h : skipWs s = 't' :: 'r' :: 'u' :: 'e' :: r) :
    parseVal (fuel + 1) s = some (.bool true, r) := by
  simp only [parseVal, h]
  simp

theorem pv_false (fuel : Nat) (s r : List Char)
    (h : skipWs s = 'f' :: 'a' :: 'l' :: 's' :: 'e' :: r) :
    parseVal (fuel + 1) s = some (.bool false, r) := by
  simp only [parseVal, h]
  simp

theorem pv_str (fuel : Nat) (s r : List Char)
    (h : skipWs s = '"' :: r) :
    parseVal (fuel + 1) s
      = (parseStrTail r).map (fun p => (.str ⟨p.1⟩, p.2)) := by
  simp only [parseVal, h]
  simp

theorem pv_neg (fuel : Nat) (s r : List Char)
    (h : skipWs s = '-' :: r) :
    parseVal (fuel + 1) s
      = (parseNatNum r).map (fun p => (.num (-(p.1 : Int)), p.2)) := by
  simp only [parseVal, h]
  simp

theorem pv_digit (fuel : Nat) (s r : List Char) (c : Char)
    (h : skipWs s = c :: r) (hc : isDigitCh c = true) :
    parseVal (fuel + 1) s
      = (parseNatNum (c :: r)).map (fun p => (.num (p.1 : Int), p.2)) := by
  obtain ⟨f1, f2, f3, f4, f5, _⟩ := digit_facts c hc
  simp only [parseVal, h]
  rw [if_neg f1, if_neg f2, if_neg f3, if_neg f4, if_neg f5, if_pos hc]

theorem pv_arr_nil (fuel : Nat) (s r r2 : List Char)
    (h : skipWs s = '[' :: r) (h2 : skipWs r = ']' :: r2) :
    parseVal (fuel + 1) s = some (.arr [], r2) := by
  simp only [parseVal, h, h2]
  simp [isDigitCh]

theorem pv_arr_cons (fuel : Nat) (s r r2 r3 r4 : List Char) (c2 : Char)
    (v : Json) (vs : List Json)
    (h : skipWs s = '[' :: r) (h2 : skipWs r = c2 :: r2) (hc2 : ¬ c2 = ']')
    (hv : parseVal fuel (c2 :: r2) = some (v, r3))
    (he : parseMoreElems fuel r3 = some (vs, r4)) :
    parseVal (fuel + 1) s = some (.arr (v :: vs), r4) := by
  simp only [parseVal, h, h2, hc2, hv, he]
  simp [hc2, isDigitCh]

theorem pv_obj_nil (fuel : Nat) (s r r2 : List Char)
    (h : skipWs s = '{' :: r) (h2 : skipWs r = '}' :: r2) :
    parseVal (fuel + 1) s = some (.obj [], r2) := by
  simp only [parseVal, h, h2]
  simp [isDigitCh]

theorem pv_obj_cons (fuel : Nat) (s r r2 r3 r4 r5 r6 : List Char)
    (k : List Char) (v : Json) (kvs : List (String × Json))
    (h : skipWs s = '{' :: r) (h2 : skipWs r = '"' :: r2)
    (hk : parseStrTail r2 = some (k, r3)) (h3 : skipWs r3 = ':' :: r4)
    (hv : parseVal fuel r4 = some (v, r5))
    (hp : parseMorePairs fuel r5 = some (kvs, r6)) :
    parseVal (fuel + 1) s = some (.obj ((⟨k⟩, v) :: kvs), r6) := by
  simp only [parseVal, h, h2, hk, h3, hv, hp]
  simp [isDigitCh]

theorem pme_close (fuel : Nat) (s r : List Char)
    (h : skipWs s = ']' :: r) :
    parseMoreElems (fuel + 1) s = some ([], r) := by
  simp only [parseMoreElems, h]
  simp

theorem pme_comma (fuel : Nat) (s r r2 r3 : List Char) (v : Json)
    (vs : List Json)
    (h : skipWs s = ',' :: r)
    (hv : parseVal fuel r = some (v, r2))
    (hrest : parseMoreElems fuel r2 = some (vs, r3)) :
    parseMoreElems (fuel + 1) s = some (v :: vs, r3) := by
  simp only [parseMoreElems, h, hv, hrest]
  simp

theorem pmp_close (fuel : Nat) (s r : List Char)
    (h : skipWs s = '}' :: r) :
    parseMorePairs (fuel + 1) s = some ([], r) := by
  simp only [parseMorePairs, h]
  simp

theorem pmp_comma (fuel : Nat) (s r r2 r3 r4 r5 r6 : List Char)
    (k : List Char) (v : Json) (kvs : List (String × Json))
    (h : skipWs s = ',' :: r) (h2 : skipWs r = '"' :: r2)
    (hk : parseStrTail r2 = some (k, r3)) (h3 : skipWs r3 = ':' :: r4)
    (hv : parseVal fuel r4 = some (v, r5))
    (hrest : parseMorePairs fuel r5 = some (kvs, r6)) :
    parseMorePairs (fuel + 1) s = some ((⟨k⟩, v) :: kvs, r6) := by
  simp only [parseMorePairs, h, h2, hk, h3, hv, hrest]
  simp

/-! Assembling the round trip: whitespace congruence, head shapes, and the
main induction. -/

theorem parseVal_ws_congr (fuel : Nat) (s1 s2 : List Char)
    (h : skipWs s1 = skipWs s2) : parseVal fuel s1 = parseVal fuel s2 := by
  cases fuel with
  | zero => rfl
  | succ f => simp only [parseVal, h]

theorem skipWs_skipWs (s : List Char) : skipWs (skipWs s) = skipWs s := by
  induction s with
  | nil => rfl
  | cons c cs ih =>
    by_cases h : isStripWs c = true
    · rw [skipWs_ws_cons c h]
      exact ih
    · rw [skipWs_not_ws_cons c (by simpa using h), skipWs_not_ws_cons c (by simpa using h)]

theorem dumpVal_head (ind : Nat) (j : Json) :
    ∃ c cs, dumpVal ind j = c :: cs ∧ isStripWs c = false
      ∧ ¬ c = ']' ∧ ¬ c = '}' := by
  cases j with
  | num i =>
    by_cases h : i < 0
    · refine ⟨'-', printNat i.natAbs, by simp [dumpVal, printInt, h], ?_, ?_, ?_⟩
        <;> decide
    · obtain ⟨c, cs, hpr⟩ : ∃ c cs, printNat i.natAbs = c :: cs := by
        cases hp : printNat i.natAbs with
        | nil => exact absurd hp (printNat_ne_nil _)
        | cons c cs => exact ⟨c, cs, rfl⟩
      have hc : isDigitCh c = true := printNat_all_digits _ c (by rw [hpr]; simp)
      obtain ⟨_, _, _, _, _, _, _, hws, hrb, hcb, _⟩ := digit_facts c hc
      refine ⟨c, cs, ?_, hws, hrb, hcb⟩
      simp [dumpVal, printInt, h, hpr]
  | bool b =>
    cases b with
    | false => refine ⟨'f', _, rfl, ?_, ?_, ?_⟩ <;> decide
    | true => refine ⟨'t', _, rfl, ?_, ?_, ?_⟩ <;> decide
  | null => refine ⟨'n', _, rfl, ?_, ?_, ?_⟩ <;> decide
  | str s => refine ⟨'"', _, rfl, ?_, ?_, ?_⟩ <;> decide
  | arr xs =>
    cases xs with
    | nil => refine ⟨'[', _, rfl, ?_, ?_, ?_⟩ <;> decide
    | cons x xs => refine ⟨'[', _, rfl, ?_, ?_, ?_⟩ <;> decide
  | obj kvs =>
    cases kvs with
    | nil => refine ⟨'{', _, rfl, ?_, ?_, ?_⟩ <;> decide
    | cons kv kvs =>
      obtain ⟨k, v⟩ := kv
      refine ⟨'{', _, rfl, ?_, ?_, ?_⟩ <;> decide

theorem skipWs_dump (ind : Nat) (j : Json) (t : List Char) :
    skipWs (dumpVal ind j ++ t) = dumpVal ind j ++ t := by
  obtain ⟨c, cs, hd, hws, _, _⟩ := dumpVal_head ind j
  rw [hd, List.cons_append, skipWs_not_ws_cons c hws]

theorem ndh_more_elems (ind : Nat) (xs : List Json) (t : List Char) :
    noDigitHead (dumpMoreElems ind xs ++ '\n' :: t) = true := by
  cases xs with
  | nil => simp [dumpMoreElems, noDigitHead, isDigitCh]
  | cons x xs => simp [dumpMoreElems, noDigitHead, isDigitCh]

theorem ndh_more_pairs (ind : Nat) (kvs : List (String × Json)) (t : List Char) :
    noDigitHead (dumpMorePairs ind kvs ++ '\n' :: t) = true := by
  cases kvs with
  | nil => simp [dumpMorePairs, noDigitHead, isDigitCh]
  | cons kv kvs =>
    obtain ⟨k, v⟩ := kv
    simp [dumpMorePairs, noDigitHead, isDigitCh]

theorem sizeJ_pos (j : Json) : 1 ≤ sizeJ j := by
  cases j <;> simp [sizeJ]

theorem sizeA_pos (xs : List Json) : 1 ≤ sizeA xs := by
  cases xs with
  | nil => simp [sizeA]
  | cons x xs =>
    have := sizeJ_pos x
    simp [sizeA]
    omega

theorem sizeO_pos (kvs : List (String × Json)) : 1 ≤ sizeO kvs := by
  cases kvs with
  | nil => simp [sizeO]
  | cons kv kvs =>
    obtain ⟨k, v⟩ := kv
    have := sizeJ_pos v
    simp [sizeO]
    omega

theorem rt_num (i : Int) (fuel ind : Nat) (rest : List Char)
    (hnd : noDigitHead rest = true) :
    parseVal (fuel + 1) (dumpVal ind (.num i) ++ rest) = some (.num i, rest) := by
  by_cases h : i < 0
  · have hshape : dumpVal ind (.num i) ++ rest
        = '-' :: (printNat i.natAbs ++ rest) := by
      simp [dumpVal, printInt, h]
    rw [hshape, pv_neg fuel _ _ (skipWs_not_ws_cons '-' (by decide) _),
      parseNatNum_printNat _ _ hnd]
    have hi : -((i.natAbs : Nat) : Int) = i := by omega
    simp only [Option.map_some']
    rw [hi]
  · obtain ⟨c, cs, hpr⟩ : ∃ c cs, printNat i.natAbs = c :: cs := by
      cases hp : printNat i.natAbs with
      | nil => exact absurd hp (printNat_ne_nil _)
      | cons c cs => exact ⟨c, cs, rfl⟩
    have hc : isDigitCh c = true := printNat_all_digits _ c (by rw [hpr]; simp)
    obtain ⟨_, _, _, _, _, _, _, hws, _, _, _⟩ := digit_facts c hc
    have hshape : dumpVal ind (.num i) ++ rest = c :: (cs ++ rest) := by
      simp [dumpVal, printInt, h, hpr]
    rw [hshape, pv_digit fuel _ _ c (skipWs_not_ws_cons c hws _) hc,
      show c :: (cs ++ rest) = printNat i.natAbs ++ rest by simp [hpr],
      parseNatNum_printNat _ _ hnd]
    have hi : ((i.natAbs : Nat) : Int) = i := by omega
    simp only [Option.map_some']
    rw [hi]

theorem rt_str (s : String) (fuel ind : Nat) (rest : List Char) :
    parseVal (fuel + 1) (dumpVal ind (.str s) ++ rest) = some (.str s, rest) := by
  have hshape : dumpVal ind (.str s) ++ rest
      = '"' :: (s.data.flatMap escapeChar ++ ('"' :: rest)) := by
    simp [dumpVal, dumpStr]
  rw [hshape, pv_str fuel _ _ (skipWs_not_ws_cons '"' (by decide) _),
    parseStrTail_escape]
  rfl

theorem rt_elems (xs : List Json)
    (hP : ∀ x ∈ xs, ∀ fuel ind rest, sizeJ x ≤ fuel → noDigitHead rest = true →
      parseVal fuel (dumpVal ind x ++ rest) = some (x, rest)) :
    ∀ fuel ind icl rest, sizeA xs ≤ fuel → noDigitHead rest = true →
      parseMoreElems fuel
        (dumpMoreElems ind xs ++ '\n' :: (List.replicate icl ' ' ++ ']' :: rest))
        = some (xs, rest) := by
  induction xs with
  | nil =>
    intro fuel ind icl rest hsz hnd
    cases fuel with
    | zero => simp [sizeA] at hsz
    | succ f =>
      have h : skipWs (dumpMoreElems ind ([] : List Json)
          ++ '\n' :: (List.replicate icl ' ' ++ ']' :: rest)) = ']' :: rest := by
        simp only [dumpMoreElems, List.nil_append]
        rw [skipWs_newline_indent, skipWs_not_ws_cons ']' (by decide)]
      exact pme_close f _ _ h
  | cons x xs ih =>
    intro fuel ind icl rest hsz hnd
    cases fuel with
    | zero =>
      have h1 := sizeJ_pos x
      have h2 := sizeA_pos xs
      simp [sizeA] at hsz
      omega
    | succ f =>
      have hx : sizeJ x ≤ f := by
        have := sizeA_pos xs
        simp [sizeA] at hsz
        omega
      have hxs : sizeA xs ≤ f := by
        have := sizeJ_pos x
        simp [sizeA] at hsz
        omega
      have hshape : dumpMoreElems ind (x :: xs)
          ++ '\n' :: (List.replicate icl ' ' ++ ']' :: rest)
          = ',' :: ('\n' :: (List.replicate ind ' ' ++ (dumpVal ind x
            ++ (dumpMoreElems ind xs
              ++ '\n' :: (List.replicate icl ' ' ++ ']' :: rest))))) := by
        simp [dumpMoreElems]
      rw [hshape]
      have h : skipWs (',' :: ('\n' :: (List.replicate ind ' ' ++ (dumpVal ind x
          ++ (dumpMoreElems ind xs
            ++ '\n' :: (List.replicate icl ' ' ++ ']' :: rest))))))
          = ',' :: ('\n' :: (List.replicate ind ' ' ++ (dumpVal ind x
          ++ (dumpMoreElems ind xs
            ++ '\n' :: (List.replicate icl ' ' ++ ']' :: rest))))) :=
        skipWs_not_ws_cons ',' (by decide) _
      have hv : parseVal f ('\n' :: (List.replicate ind ' ' ++ (dumpVal ind x
          ++ (dumpMoreElems ind xs
            ++ '\n' :: (List.replicate icl ' ' ++ ']' :: rest)))))
          = some (x, dumpMoreElems ind xs
            ++ '\n' :: (List.replicate icl ' ' ++ ']' :: rest)) := by
        rw [parseVal_ws_congr f _ (dumpVal ind x ++ (dumpMoreElems ind xs
          ++ '\n' :: (List.replicate icl ' ' ++ ']' :: rest)))
          (by rw [skipWs_newline_indent, skipWs_dump])]
        exact hP x (by simp) f ind _ hx (ndh_more_elems ind xs _)
      have he : parseMoreElems f (dumpMoreElems ind xs
          ++ '\n' :: (List.replicate icl ' ' ++ ']' :: rest))
          = some (xs, rest) :=
        ih (fun y hy => hP y (by simp [hy])) f ind icl rest hxs hnd
      exact pme_comma f _ _ _ _ x xs h hv he

theorem rt_pairs (kvs : List (String × Json))
    (hP : ∀ kv ∈ kvs, ∀ fuel ind rest, sizeJ kv.2 ≤ fuel →
      noDigitHead rest = true →
      parseVal fuel (dumpVal ind kv.2 ++ rest) = some (kv.2, rest)) :
    ∀ fuel ind icl rest, sizeO kvs ≤ fuel → noDigitHead rest = true →
      parseMorePairs fuel
        (dumpMorePairs ind kvs ++ '\n' :: (List.replicate icl ' ' ++ '}' :: rest))
        = some (kvs, rest) := by
  induction kvs with
  | nil =>
    intro fuel ind icl rest hsz hnd
    cases fuel with
    | zero => simp [sizeO] at hsz
    | succ f =>
      have h : skipWs (dumpMorePairs ind ([] : List (String × Json))
          ++ '\n' :: (List.replicate icl ' ' ++ '}' :: rest)) = '}' :: rest := by
        simp only [dumpMorePairs, List.nil_append]
        rw [skipWs_newline_indent, skipWs_not_ws_cons '}' (by decide)]
      exact pmp_close f _ _ h
  | cons kv kvs ih =>
    obtain ⟨k, v⟩ := kv
    intro fuel ind icl rest hsz hnd
    cases fuel with
    | zero =>
      have h1 := sizeJ_pos v
      have h2 := sizeO_pos kvs
      simp [sizeO] at hsz
      omega
    | succ f =>
      have hv2 : sizeJ v ≤ f := by
        have := sizeO_pos kvs
        simp [sizeO] at hsz
        omega
      have hkvs : sizeO kvs ≤ f := by
        have := sizeJ_pos v
        simp [sizeO] at hsz
        omega
      have hshape : dumpMorePairs ind ((k, v) :: kvs)
          ++ '\n' :: (List.replicate icl ' ' ++ '}' :: rest)
          = ',' :: '\n' :: (List.replicate ind ' '
            ++ '"' :: (k.data.flatMap escapeChar
              ++ '"' :: ':' :: ' ' :: (dumpVal ind v
                ++ (dumpMorePairs ind kvs
                  ++ '\n' :: (List.replicate icl ' ' ++ '}' :: rest))))) := by
        simp [dumpMorePairs, dumpStr, List.append_assoc, List.cons_append]
      rw [hshape]
      have h2 : skipWs ('\n' :: (List.replicate ind ' '
          ++ '"' :: (k.data.flatMap escapeChar
            ++ '"' :: ':' :: ' ' :: (dumpVal ind v
              ++ (dumpMorePairs ind kvs
                ++ '\n' :: (List.replicate icl ' ' ++ '}' :: rest))))))
          = '"' :: (k.data.flatMap escapeChar
            ++ '"' :: ':' :: ' ' :: (dumpVal ind v
              ++ (dumpMorePairs ind kvs
                ++ '\n' :: (List.replicate icl ' ' ++ '}' :: rest)))) := by
        rw [skipWs_newline_indent, skipWs_not_ws_cons '"' (by decide)]
      have hk : parseStrTail (k.data.flatMap escapeChar
          ++ '"' :: ':' :: ' ' :: (dumpVal ind v
            ++ (dumpMorePairs ind kvs
              ++ '\n' :: (List.replicate icl ' ' ++ '}' :: rest))))
          = some (k.data, ':' :: ' ' :: (dumpVal ind v
            ++ (dumpMorePairs ind kvs
              ++ '\n' :: (List.replicate icl ' ' ++ '}' :: rest)))) :=
        parseStrTail_escape k.data _
      have h3 : skipWs (':' :: ' ' :: (dumpVal ind v
          ++ (dumpMorePairs ind kvs
            ++ '\n' :: (List.replicate icl ' ' ++ '}' :: rest))))
          = ':' :: ' ' :: (dumpVal ind v
          ++ (dumpMorePairs ind kvs
            ++ '\n' :: (List.replicate icl ' ' ++ '}' :: rest))) :=
        skipWs_not_ws_cons ':' (by decide) _
      have hvp : parseVal f (' ' :: (dumpVal ind v
          ++ (dumpMorePairs ind kvs
            ++ '\n' :: (List.replicate icl ' ' ++ '}' :: rest))))
          = some (v, dumpMorePairs ind kvs
            ++ '\n' :: (List.replicate icl ' ' ++ '}' :: rest)) := by
        rw [parseVal_ws_congr f _ (dumpVal ind v ++ (dumpMorePairs ind kvs
          ++ '\n' :: (List.replicate icl ' ' ++ '}' :: rest)))
          (by rw [skipWs_ws_cons ' ' (by decide), skipWs_dump])]
        exact hP (k, v) (by simp) f ind _ hv2 (ndh_more_pairs ind kvs _)
      have hrest : parseMorePairs f (dumpMorePairs ind kvs
          ++ '\n' :: (List.replicate icl ' ' ++ '}' :: rest))
          = some (kvs, rest) :=
        ih (fun y hy => hP y (by simp [hy])) f ind icl rest hkvs hnd
      have := pmp_comma f _ _ _ _ _ _ _ k.data v kvs
        (skipWs_not_ws_cons ',' (by decide) _) h2 hk h3 hvp hrest
      simpa using this

theorem rt_val (j : Json) :
    ∀ fuel ind rest, sizeJ j ≤ fuel → noDigitHead rest = true →
      parseVal fuel (dumpVal ind j ++ rest) = some (j, rest) := by
  induction j using Json.recurse with
  | hnull =>
    intro fuel ind rest hsz hnd
    cases fuel with
    | zero => simp [sizeJ] at hsz
    | succ f =>
      exact pv_null f _ _ (by
        rw [show dumpVal ind .null ++ rest = 'n' :: 'u' :: 'l' :: 'l' :: rest from rfl,
          skipWs_not_ws_cons 'n' (by decide)])
  | hbool b =>
    intro fuel ind rest hsz hnd
    cases fuel with
    | zero => simp [sizeJ] at hsz
    | succ f =>
      cases b with
      | true =>
        exact pv_true f _ _ (by
          rw [show dumpVal ind (.bool true) ++ rest
              = 't' :: 'r' :: 'u' :: 'e' :: rest from rfl,
            skipWs_not_ws_cons 't' (by decide)])
      | false =>
        exact pv_false f _ _ (by
          rw [show dumpVal ind (.bool false) ++ rest
              = 'f' :: 'a' :: 'l' :: 's' :: 'e' :: rest from rfl,
            skipWs_not_ws_cons 'f' (by decide)])
  | hnum i =>
    intro fuel ind rest hsz hnd
    cases fuel with
    | zero => simp [sizeJ] at hsz
    | succ f => exact rt_num i f ind rest hnd
  | hstr s =>
    intro fuel ind rest hsz hnd
    cases fuel with
    | zero => simp [sizeJ] at hsz
    | succ f => exact rt_str s f ind rest
  | harr xs ih =>
    intro fuel ind rest hsz hnd
    cases xs with
    | nil =>
      cases fuel with
      | zero => simp [sizeJ] at hsz
      | succ f =>
        refine pv_arr_nil f _ (']' :: rest) rest ?_ ?_
        · rw [show dumpVal ind (.arr []) ++ rest = '[' :: ']' :: rest from rfl,
            skipWs_not_ws_cons '[' (by decide)]
        · rw [skipWs_not_ws_cons ']' (by decide)]
    | cons x xs =>
      cases fuel with
      | zero =>
        have h1 := sizeJ_pos x
        have h2 := sizeA_pos xs
        simp [sizeJ, sizeA] at hsz
      | succ f =>
        have hx : sizeJ x ≤ f := by
          have := sizeA_pos xs
          simp [sizeJ, sizeA] at hsz
          omega
        have hxs : sizeA xs ≤ f := by
          have := sizeJ_pos x
          simp [sizeJ, sizeA] at hsz
          omega
        obtain ⟨c2, cs2, hd, hws2, hrb2, hcb2⟩ := dumpVal_head (ind + 2) x
        have hshape : dumpVal ind (.arr (x :: xs)) ++ rest
            = '[' :: '\n' :: (List.replicate (ind + 2) ' '
              ++ (dumpVal (ind + 2) x
                ++ (dumpMoreElems (ind + 2) xs
                  ++ '\n' :: (List.replicate ind ' ' ++ ']' :: rest)))) := by
          simp [dumpVal, List.append_assoc, List.cons_append]
        rw [hshape]
        refine pv_arr_cons f _
          ('\n' :: (List.replicate (ind + 2) ' '
            ++ (dumpVal (ind + 2) x
              ++ (dumpMoreElems (ind + 2) xs
                ++ '\n' :: (List.replicate ind ' ' ++ ']' :: rest)))))
          (cs2 ++ (dumpMoreElems (ind + 2) xs
            ++ '\n' :: (List.replicate ind ' ' ++ ']' :: rest)))
          (dumpMoreElems (ind + 2) xs
            ++ '\n' :: (List.replicate ind ' ' ++ ']' :: rest))
          rest c2 x xs
          (skipWs_not_ws_cons '[' (by decide) _) ?_ hrb2 ?_ ?_
        · rw [skipWs_newline_indent, hd, List.cons_append,
            skipWs_not_ws_cons c2 hws2]
        · rw [show c2 :: (cs2 ++ (dumpMoreElems (ind + 2) xs
              ++ '\n' :: (List.replicate ind ' ' ++ ']' :: rest)))
              = dumpVal (ind + 2) x ++ (dumpMoreElems (ind + 2) xs
              ++ '\n' :: (List.replicate ind ' ' ++ ']' :: rest)) by
            rw [hd, List.cons_append]]
          exact ih x (by simp) f (ind + 2) _ hx (ndh_more_elems (ind + 2) xs _)
        · exact rt_elems xs (fun y hy => ih y (by simp [hy])) f (ind + 2) ind
            rest hxs hnd
  | hobj kvs ih =>
    intro fuel ind rest hsz hnd
    cases kvs with
    | nil =>
      cases fuel with
      | zero => simp [sizeJ] at hsz
      | succ f =>
        refine pv_obj_nil f _ ('}' :: rest) rest ?_ ?_
        · rw [show dumpVal ind (.obj []) ++ rest = '{' :: '}' :: rest from rfl,
            skipWs_not_ws_cons '{' (by decide)]
        · rw [skipWs_not_ws_cons '}' (by decide)]
    | cons kv kvs =>
      obtain ⟨k, v⟩ := kv
      cases fuel with
      | zero =>
        have h1 := sizeJ_pos v
        have h2 := sizeO_pos kvs
        simp [sizeJ, sizeO] at hsz
      | succ f =>
        have hv2 : sizeJ v ≤ f := by
          have := sizeO_pos kvs
          simp [sizeJ, sizeO] at hsz
          omega
        have hkvs : sizeO kvs ≤ f := by
          have := sizeJ_pos v
          simp [sizeJ, sizeO] at hsz
          omega
        have hshape : dumpVal ind (.obj ((k, v) :: kvs)) ++ rest
            = '{' :: '\n' :: (List.replicate (ind + 2) ' '
              ++ '"' :: (k.data.flatMap escapeChar
                ++ '"' :: ':' :: ' ' :: (dumpVal (ind + 2) v
                  ++ (dumpMorePairs (ind + 2) kvs
                    ++ '\n' :: (List.replicate ind ' ' ++ '}' :: rest))))) := by
          simp [dumpVal, dumpStr, List.append_assoc, List.cons_append]
        rw [hshape]
        have hstep := pv_obj_cons f
          ('{' :: '\n' :: (List.replicate (ind + 2) ' '
            ++ '"' :: (k.data.flatMap escapeChar
              ++ '"' :: ':' :: ' ' :: (dumpVal (ind + 2) v
                ++ (dumpMorePairs (ind + 2) kvs
                  ++ '\n' :: (List.replicate ind ' ' ++ '}' :: rest))))))
          ('\n' :: (List.replicate (ind + 2) ' '
            ++ '"' :: (k.data.flatMap escapeChar
              ++ '"' :: ':' :: ' ' :: (dumpVal (ind + 2) v
                ++ (dumpMorePairs (ind + 2) kvs
                  ++ '\n' :: (List.replicate ind ' ' ++ '}' :: rest))))))
          (k.data.flatMap escapeChar
            ++ '"' :: ':' :: ' ' :: (dumpVal (ind + 2) v
              ++ (dumpMorePairs (ind + 2) kvs
                ++ '\n' :: (List.replicate ind ' ' ++ '}' :: rest))))
          (':' :: ' ' :: (dumpVal (ind + 2) v
            ++ (dumpMorePairs (ind + 2) kvs
              ++ '\n' :: (List.replicate ind ' ' ++ '}' :: rest))))
          (' ' :: (dumpVal (ind + 2) v
            ++ (dumpMorePairs (ind + 2) kvs
              ++ '\n' :: (List.replicate ind ' ' ++ '}' :: rest))))
          (dumpMorePairs (ind + 2) kvs
            ++ '\n' :: (List.replicate ind ' ' ++ '}' :: rest))
          rest k.data v kvs
          (skipWs_not_ws_cons '{' (by decide) _)
          (by
            rw [skipWs_newline_indent, skipWs_not_ws_cons '"' (by decide)])
          (parseStrTail_escape k.data _)
          (skipWs_not_ws_cons ':' (by decide) _)
          (by
            rw [parseVal_ws_congr f _ (dumpVal (ind + 2) v
              ++ (dumpMorePairs (ind + 2) kvs
                ++ '\n' :: (List.replicate ind ' ' ++ '}' :: rest)))
              (by rw [skipWs_ws_cons ' ' (by decide), skipWs_dump])]
            exact ih (k, v) (by simp) f (ind + 2) _ hv2
              (ndh_more_pairs (ind + 2) kvs _))
          (rt_pairs kvs (fun y hy => ih y (by simp [hy])) f (ind + 2) ind
            rest hkvs hnd)
        simpa using hstep

theorem sizeA_le_len (xs : List Json)
    (h : ∀ x ∈ xs, ∀ ind, sizeJ x ≤ (dumpVal ind x).length) :
    ∀ ind, sizeA xs ≤ (dumpMoreElems ind xs).length + 1 := by
  induction xs with
  | nil => intro ind; simp [sizeA, dumpMoreElems]
  | cons x xs ih =>
    intro ind
    have hx := h x (by simp) ind
    have hrest := ih (fun y hy => h y (by simp [hy])) ind
    simp only [sizeA, dumpMoreElems]
    simp
    omega

theorem sizeO_le_len (kvs : List (String × Json))
    (h : ∀ kv ∈ kvs, ∀ ind, sizeJ kv.2 ≤ (dumpVal ind kv.2).length) :
    ∀ ind, sizeO kvs ≤ (dumpMorePairs ind kvs).length + 1 := by
  induction kvs with
  | nil => intro ind; simp [sizeO, dumpMorePairs]
  | cons kv kvs ih =>
    obtain ⟨k, v⟩ := kv
    intro ind
    have hx : ∀ ind2, sizeJ v ≤ (dumpVal ind2 v).length := h (k, v) (by simp)
    have hrest := ih (fun y hy => h y (by simp [hy])) ind
    have hx2 := hx ind
    simp only [sizeO, dumpMorePairs]
    simp
    omega

theorem sizeJ_le_len (j : Json) : ∀ ind, sizeJ j ≤ (dumpVal ind j).length := by
  induction j using Json.recurse with
  | hnull => intro ind; simp [sizeJ, dumpVal]
  | hbool b => intro ind; cases b <;> simp [sizeJ, dumpVal]
  | hnum i =>
    intro ind
    have h1 : printNat i.natAbs ≠ [] := printNat_ne_nil _
    have h2 : 1 ≤ (printNat i.natAbs).length := by
      cases hp : printNat i.natAbs with
      | nil => exact absurd hp h1
      | cons c cs => simp
    by_cases h : i < 0
    · simp [sizeJ, dumpVal, printInt, h]
    · simp [sizeJ, dumpVal, printInt, h]
      omega
  | hstr s => intro ind; simp [sizeJ, dumpVal, dumpStr]
  | harr xs ih =>
    intro ind
    cases xs with
    | nil => simp [sizeJ, sizeA, dumpVal]
    | cons x xs =>
      have hx := ih x (by simp) (ind + 2)
      have hxs := sizeA_le_len xs (fun y hy => ih y (by simp [hy])) (ind + 2)
      simp only [sizeJ, sizeA, dumpVal]
      simp
      omega
  | hobj kvs ih =>
    intro ind
    cases kvs with
    | nil => simp [sizeJ, sizeO, dumpVal]
    | cons kv kvs =>
      obtain ⟨k, v⟩ := kv
      have hx : sizeJ v ≤ (dumpVal (ind + 2) v).length := ih (k, v) (by simp) (ind + 2)
      have hkvs := sizeO_le_len kvs (fun y hy => ih y (by simp [hy])) (ind + 2)
      simp only [sizeJ, sizeO, dumpVal]
      simp
      omega

theorem loads_dumps (j : Json) : loads (dumps j) = some j := by
  have hfuel : sizeJ j ≤ (dumpVal 0 j).length + 1 :=
    le_trans (sizeJ_le_len j 0) (by omega)
  have h := rt_val j ((dumpVal 0 j).length + 1) 0 [] hfuel rfl
  rw [List.append_nil] at h
  unfold loads dumps
  rw [show (String.mk (dumpVal 0 j)).data = dumpVal 0 j from rfl,
    show (dumpVal 0 j).length + 1 = (dumpVal 0 j).length + 1 from rfl, h]
  rfl

/-! ### Claim C5: clean_schema leaves no additionalProperties anywhere -/

theorem cleanPairs_key_not_mem (kvs : List (String × Json)) :
    ∀ v : Json, ("additionalProperties", v) ∉ cleanPairs kvs := by
  induction kvs with
  | nil => simp [cleanPairs]
  | cons kv rest ih =>
    obtain ⟨k, v0⟩ := kv
    by_cases h : k = "additionalProperties"
    · simpa [cleanPairs, h] using ih
    · intro v hv
      simp only [cleanPairs, if_neg h, List.mem_cons] at hv
      rcases hv with hv | hv
      · exact h (by simpa using (Prod.mk.injEq _ _ _ _ ▸ hv).1.symm)
      · exact ih v hv

/-- Claim C5: for every (arbitrarily nested) schema value whose dicts have
pairwise distinct keys (the invariant of every Python dict), the output of
clean_schema contains no binding of the additionalProperties key at any
nesting depth. -/
theorem clean_schema_no_addProps :
    ∀ j : Json, noDupKeys j = true → noAddProps (clean_schema j) = true := by
  have hpairs : ∀ kvs : List (String × Json),
      (∀ kv ∈ kvs, noDupKeys kv.2 = true → noAddProps (clean_schema kv.2) = true) →
      noDupKeysPairs kvs = true → noAddPropsPairs (cleanPairs kvs) = true := by
    intro kvs
    induction kvs with
    | nil => intro _ _; simp [cleanPairs, noAddPropsPairs]
    | cons kv rest ih =>
      obtain ⟨k, v⟩ := kv
      intro hmem hdup
      simp only [noDupKeysPairs, Bool.and_eq_true] at hdup
      have hv := hmem (k, v) (by simp) hdup.1
      have hrest := ih (fun y hy => hmem y (by simp [hy])) hdup.2
      by_cases h : k = "additionalProperties"
      · simp [cleanPairs, h, hrest]
      · simp [cleanPairs, h, noAddPropsPairs, hv, hrest]
  intro j
  induction j using Json.recurse with
  | hnull => intro _; simp [clean_schema, noAddProps]
  | hbool b => intro _; simp [clean_schema, noAddProps]
  | hnum n => intro _; simp [clean_schema, noAddProps]
  | hstr s => intro _; simp [clean_schema, noAddProps]
  | harr xs ih =>
    intro hdup
    simp only [noDupKeys] at hdup
    simp only [clean_schema, noAddProps]
    have : ∀ ys : List Json,
        (∀ x ∈ ys, noDupKeys x = true → noAddProps (clean_schema x) = true) →
        noDupKeysElems ys = true → noAddPropsElems (cleanElems ys) = true := by
      intro ys
      induction ys with
      | nil => intro _ _; simp [cleanElems, noAddPropsElems]
      | cons y rest ihy =>
        intro hmem hd
        simp only [noDupKeysElems, Bool.and_eq_true] at hd
        simp [cleanElems, noAddPropsElems, hmem y (by simp) hd.1,
          ihy (fun z hz => hmem z (by simp [hz])) hd.2]
    exact this xs ih hdup
  | hobj kvs ih =>
    intro hdup
    simp only [noDupKeys, Bool.and_eq_true] at hdup
    simp only [clean_schema, noAddProps, Bool.and_eq_true]
    refine ⟨?_, hpairs kvs ih hdup.2⟩
    simpa using cleanPairs_key_not_mem kvs

theorem clean_schema_no_addProps_witness :
    noDupKeys (.obj [("additionalProperties", .bool false),
      ("properties", .obj [("x", .obj [("additionalProperties", .null),
        ("type", .str "string")])]),
      ("items", .arr [.obj [("additionalProperties", .num 3)]])]) = true
    ∧ noAddProps (clean_schema (.obj [("additionalProperties", .bool false),
      ("properties", .obj [("x", .obj [("additionalProperties", .null),
        ("type", .str "string")])]),
      ("items", .arr [.obj [("additionalProperties", .num 3)]])])) = true := by
  refine ⟨by decide, clean_schema_no_addProps _ (by decide)⟩

/-! ### Claim C1: the submit-time schema dictionary -/

theorem dictFold_nodup {α : Type} :
    ∀ (l acc : List (String × α)),
      ((acc ++ l).map Prod.fst).Nodup →
      l.foldl (fun d p => dictInsert d p.1 p.2) acc = acc ++ l := by
  intro l
  induction l with
  | nil => intro acc _; simp
  | cons p rest ih =>
    obtain ⟨k, v⟩ := p
    intro acc hnd
    have hk : ¬ acc.any (fun q => q.1 = k) = true := by
      simp only [List.map_append, List.map_cons] at hnd
      have := List.Nodup.not_mem (List.nodup_middle.mp (by
        simpa using hnd) : ((k :: (acc.map Prod.fst ++ rest.map Prod.fst)).Nodup))
      simp only [List.any_eq_true]
      rintro ⟨q, hq, hq2⟩
      exact this (by
        simp only [List.mem_append]
        left
        simp only [List.mem_map]
        exact ⟨q, hq, by simpa using hq2⟩)
    have hins : dictInsert acc k v = acc ++ [(k, v)] := by
      unfold dictInsert
      rw [if_neg hk]
    simp only [List.foldl_cons, hins]
    have := ih (acc ++ [(k, v)]) (by simpa using hnd)
    rw [this]
    simp

theorem dictOfPairs_nodup {α : Type} (l : List (String × α))
    (h : (l.map Prod.fst).Nodup) : dictOfPairs l = l := by
  unfold dictOfPairs
  have := dictFold_nodup l [] (by simpa using h)
  simpa using this

/-- Claim C1 counterexample: with two rows sharing the trimmed name "a",
the field ("a", "d1") is among the trimmed non-empty-named fields but the
schema does not contain a slot carrying its description (the dict
comprehension keeps one entry per name, with the last description), so the
schema does not contain exactly the fields, each with its description. -/
theorem submitDefs_duplicate_counterexample :
    ("a", "d1") ∈ keptFields [("a", "d1"), ("a", "d2")]
    ∧ ("a", FieldSlot.mk .str "d1") ∉ submitDefs [("a", "d1"), ("a", "d2")]
    ∧ submitDefs [("a", "d1"), ("a", "d2")]
        ≠ (keptFields [("a", "d1"), ("a", "d2")]).map
            (fun r => (r.1, FieldSlot.mk .str r.2)) := by
  refine ⟨by decide, by decide, by decide⟩

/-- Claim C1 (amended with pairwise-distinct trimmed names): for every
field list with at least one non-empty trimmed name and no duplicate
trimmed non-empty names, the schema dict built at submit time is exactly
the list of trimmed non-empty-named fields in order, each once, as a
string-typed slot carrying its trimmed description. -/
theorem submitDefs_exact (rows : List (String × String))
    (_hne : ∃ r ∈ rows, pyStrip r.1 ≠ "")
    (hnodup : ((keptFields rows).map Prod.fst).Nodup) :
    submitDefs rows
      = (keptFields rows).map (fun r => (r.1, FieldSlot.mk .str r.2)) := by
  unfold submitDefs buildDefs
  have hshape : (rows.map trimRow).filter (fun r => r.1 ≠ "")
      = keptFields rows := rfl
  rw [hshape]
  apply dictOfPairs_nodup
  simpa using hnodup

theorem submitDefs_exact_witness :
    (∃ r ∈ [(" a ", " da "), ("", "zz"), ("  ", "w"), ("b", " db")],
      pyStrip r.1 ≠ "")
    ∧ ((keptFields [(" a ", " da "), ("", "zz"), ("  ", "w"), ("b", " db")]).map
        Prod.fst).Nodup
    ∧ submitDefs [(" a ", " da "), ("", "zz"), ("  ", "w"), ("b", " db")]
        = [("a", FieldSlot.mk .str "da"), ("b", FieldSlot.mk .str "db")] := by
  refine ⟨by decide, by decide, ?_⟩
  rw [submitDefs_exact _ (by decide) (by decide)]
  decide

/-! ### Claim C10: prompt selection -/

/-- Claim C10: the extraction client selects the generic form-field prompt
exactly when the document-type hint is "Form"; every other hint selects
the receipt-detail prompt. -/
theorem promptFor_spec (d : String) :
    (promptFor d = "Extract all form fields as JSON." ↔ d = "Form")
    ∧ (d ≠ "Form" → promptFor d = "Extract receipt details as JSON.") := by
  by_cases h : d = "Form"
  · subst h
    refine ⟨⟨fun _ => rfl, fun _ => rfl⟩, fun hc => absurd rfl hc⟩
  · refine ⟨⟨fun hp => ?_, fun hd => absurd hd h⟩, fun _ => ?_⟩
    · exfalso
      rw [promptFor, if_neg (by simpa using h)] at hp
      exact absurd hp (by decide)
    · rw [promptFor, if_neg (by simpa using h)]

theorem promptFor_spec_witness :
    promptFor "Form" = "Extract all form fields as JSON."
    ∧ promptFor "Receipt" = "Extract receipt details as JSON." :=
  ⟨(promptFor_spec "Form").1.mpr rfl, (promptFor_spec "Receipt").2 (by decide)⟩

/-! ### Claim C4: validation of the Extract Data click -/

/-- Claim C4: with no uploaded document the click reports the upload
validation error whatever the fields hold, and with a document but only
empty or whitespace field names it reports the field validation error; in
both cases the page and the stored result are unchanged (the state remains
configure). -/
theorem submit_validation :
    (∀ (oracle : RemoteOracle) (s : SessionState), s.file_path = none →
      (extractClick oracle s).2 = .error (.validation "Upload a file first.")
      ∧ (extractClick oracle s).1.page = s.page
      ∧ (extractClick oracle s).1.result = s.result)
    ∧ (∀ (oracle : RemoteOracle) (s : SessionState) (p : String),
        s.file_path = some p → (∀ r ∈ s.field_rows, pyStrip r.1 = "") →
        (extractClick oracle s).2 = .error (.validation "Add at least one field.")
        ∧ (extractClick oracle s).1.page = s.page
        ∧ (extractClick oracle s).1.result = s.result) := by
  constructor
  · intro oracle s h
    unfold extractClick
    simp only [h, reduceIte]
    refine ⟨?_, ?_, ?_⟩ <;> first | rfl | trivial
  · intro oracle s p h hempty
    have hany : (s.field_rows.map trimRow).any (fun r => r.1 ≠ "") = false := by
      simp only [List.any_map, List.any_eq_false]
      intro r hr
      simp [trimRow, hempty r hr]
    unfold extractClick
    simp only [h, hany]
    refine ⟨?_, ?_, ?_⟩ <;> rfl

theorem submit_validation_witness :
    ((extractClick (fun _ _ => .ok "1") initState).2
        = .error (.validation "Upload a file first.")
      ∧ (extractClick (fun _ _ => .ok "1") initState).1.page = initState.page
      ∧ (extractClick (fun _ _ => .ok "1") initState).1.result
          = initState.result)
    ∧ ((extractClick (fun _ _ => .ok "1")
          { page := "upload", file_path := some "/tmp/d.pdf", result := none,
            doc_type := "Form", field_rows := [("  ", "x"), ("", "y")] }).2
        = .error (.validation "Add at least one field.")) := by
  constructor
  · exact submit_validation.1 (fun _ _ => .ok "1") initState rfl
  · exact (submit_validation.2 (fun _ _ => .ok "1")
      { page := "upload", file_path := some "/tmp/d.pdf", result := none,
        doc_type := "Form", field_rows := [("  ", "x"), ("", "y")] }
      "/tmp/d.pdf" rfl (by decide)).1

/-! ### Claim C2: extraction failures leave the configure state intact -/

/-- Claim C2: whenever the extraction client fails during a valid submit
(remote-service failure or unparseable response body), the click reports
that failure as an error value (surfaced by the framework as a user-facing
message rather than a crash), the page stays on configure, and the stored
result is unchanged. -/
theorem extract_failure_keeps_configure (oracle : RemoteOracle)
    (s : SessionState) (p : String)
    (hpage : s.page = "upload") (hfile : s.file_path = some p)
    (hfields : ∃ r ∈ s.field_rows, pyStrip r.1 ≠ "")
    (hfail : clientFails oracle s) :
    ∃ e, (extractClick oracle s).2 = .error e ∧ isClientError e = true
      ∧ (extractClick oracle s).1.page = "upload"
      ∧ (extractClick oracle s).1.result = s.result := by
  have hany : (s.field_rows.map trimRow).any (fun r => r.1 ≠ "") = true := by
    simp only [List.any_map, List.any_eq_true]
    obtain ⟨r, hr, hne⟩ := hfields
    exact ⟨r, hr, by simpa [trimRow] using hne⟩
  have herr : ∃ e0, extract_structured oracle s.doc_type
      (buildDefs (s.field_rows.map trimRow)) = .error e0 := by
    unfold clientFails at hfail
    unfold extract_structured
    cases horacle : oracle (promptFor s.doc_type)
        (clean_schema (model_json_schema (buildDefs (s.field_rows.map trimRow)))) with
    | error msg => exact ⟨.service msg, by simp [horacle]⟩
    | ok text =>
      rw [horacle] at hfail
      exact ⟨.malformedResponse, by simp [horacle, hfail]⟩
  obtain ⟨e0, he0⟩ := herr
  have hclick : extractClick oracle s
      = ({ s with field_rows := s.field_rows.map trimRow },
         .error (liftErr e0)) := by
    unfold extractClick
    simp only [hfile, hany, he0]
    simp
  refine ⟨liftErr e0, ?_, ?_, ?_, ?_⟩
  · rw [hclick]
  · cases e0 <;> simp [liftErr, isClientError]
  · rw [hclick]
    exact hpage
  · rw [hclick]

theorem extract_failure_keeps_configure_witness :
    ∃ e, (extractClick (fun _ _ => .error "quota exceeded")
        { initState with file_path := some "/tmp/doc.pdf" }).2 = .error e
      ∧ isClientError e = true
      ∧ (extractClick (fun _ _ => .error "quota exceeded")
          { initState with file_path := some "/tmp/doc.pdf" }).1.page = "upload"
      ∧ (extractClick (fun _ _ => .error "quota exceeded")
          { initState with file_path := some "/tmp/doc.pdf" }).1.result
          = ({ initState with file_path := some "/tmp/doc.pdf" } :
              SessionState).result :=
  extract_failure_keeps_configure (fun _ _ => .error "quota exceeded")
    { initState with file_path := some "/tmp/doc.pdf" } "/tmp/doc.pdf"
    rfl rfl ⟨("first_name", "User’s given name"), by decide, by decide⟩
    (by unfold clientFails; simp)

/-! ### Claim C3: the review-implies-result invariant -/

/-- Claim C3 counterexample: a remote response whose body is the JSON text
null parses to Python None (json.loads at src/app.py line 142), which is
stored as the result before the page switches to results; the reachable
state after upload-then-extract is on the review page with no stored
result.  The results view anticipates exactly this with the
result-or-empty-dict substitution at line 233. -/
theorem review_null_result_counterexample :
    (runTrace [.uploadFile "/tmp/scan.pdf",
      .extractData (fun _ _ => .ok "null")]).page = "results"
    ∧ (runTrace [.uploadFile "/tmp/scan.pdf",
      .extractData (fun _ _ => .ok "null")]).result = none := by
  constructor <;> rfl

theorem step_preserves_inv (s : SessionState) (e : Event) (hok : eventOk e)
    (hinv : s.page = "results" → s.result ≠ none) :
    (step s e).page = "results" → (step s e).result ≠ none := by
  cases e with
  | selectPreset name =>
    by_cases h : s.page = "upload"
    · simp only [step, h, reduceIte]
      cases BUILTIN_FIELDS name with
      | none =>
        intro hp
        rw [h] at hp
        simp at hp
      | some defaults =>
        intro hp
        simp at hp
    · simp only [step, h, reduceIte]
      exact hinv
  | uploadFile path =>
    by_cases h : s.page = "upload"
    · simp only [step, h, reduceIte]
      intro hp
      simp at hp
    · simp only [step, h, reduceIte]
      exact hinv
  | editField i name desc =>
    by_cases h : s.page = "upload"
    · simp only [step, h, reduceIte]
      intro hp
      simp at hp
    · simp only [step, h, reduceIte]
      exact hinv
  | addField =>
    by_cases h : s.page = "upload"
    · simp only [step, h, reduceIte]
      intro hp
      simp at hp
    · simp only [step, h, reduceIte]
      exact hinv
  | removeField i =>
    by_cases h : s.page = "upload"
    · simp only [step, h, reduceIte]
      intro hp
      simp at hp
    · simp only [step, h, reduceIte]
      exact hinv
  | resetFields =>
    by_cases h : s.page = "upload"
    · simp only [step, h, reduceIte]
      cases BUILTIN_FIELDS s.doc_type with
      | none =>
        intro hp
        rw [h] at hp
        simp at hp
      | some defaults =>
        intro hp
        simp at hp
    · simp only [step, h, reduceIte]
      exact hinv
  | processAnother =>
    by_cases h : s.page = "results"
    · simp only [step, h, reduceIte]
      intro hp
      exact absurd hp (by decide)
    · simp only [step, h, reduceIte]
      intro hp
      exact hp.elim
  | extractData oracle =>
    by_cases h : s.page = "upload"
    · simp only [step, h, reduceIte]
      unfold extractClick
      by_cases h1 : s.file_path = none
      · simp only [h1, reduceIte]
        intro hp
        rw [h] at hp
        simp at hp
      · simp only [h1, reduceIte]
        by_cases h2 : ((s.field_rows.map trimRow).any
            (fun r => r.1 ≠ "")) = true
        · simp only [h2, Bool.not_true, Bool.false_eq_true, reduceIte]
          cases hx : extract_structured oracle s.doc_type
              (buildDefs (s.field_rows.map trimRow)) with
          | error e0 =>
            intro hp
            rw [h] at hp
            simp at hp
          | ok j =>
            intro _
            have hj : j ≠ Json.null := by
              unfold extract_structured at hx
              cases horacle : oracle (promptFor s.doc_type)
                  (clean_schema (model_json_schema
                    (buildDefs (s.field_rows.map trimRow)))) with
              | error msg =>
                rw [horacle] at hx
                simp at hx
              | ok text =>
                rw [horacle] at hx
                simp only [] at hx
                cases hload : loads text with
                | none =>
                  rw [hload] at hx
                  simp at hx
                | some j2 =>
                  rw [hload] at hx
                  simp only [Except.ok.injEq] at hx
                  subst hx
                  have hne := hok (promptFor s.doc_type)
                    (clean_schema (model_json_schema
                      (buildDefs (s.field_rows.map trimRow)))) text horacle
                  intro hnull
                  subst hnull
                  exact hne hload
            show pyStore j ≠ none
            cases j <;> simp [pyStore] at hj ⊢
        · simp only [h2, Bool.false_eq_true, reduceIte]
          intro hp
          rw [h] at hp
          simp at hp
    · simp only [step, h, reduceIte]
      exact hinv

/-- Claim C3 (amended): along every trace in which no extraction response
parses to the JSON text null, a state on the review page always holds a
stored result; the invariant fails only for a null response, as the
counterexample shows. -/
theorem review_implies_result (events : List Event)
    (hok : ∀ e ∈ events, eventOk e) :
    (runTrace events).page = "results" → (runTrace events).result ≠ none := by
  have main : ∀ (evs : List Event) (s : SessionState),
      (∀ e ∈ evs, eventOk e) → (s.page = "results" → s.result ≠ none) →
      ((evs.foldl step s).page = "results" → (evs.foldl step s).result ≠ none) := by
    intro evs
    induction evs with
    | nil => intro s _ hinv; simpa using hinv
    | cons e evs ih =>
      intro s hoks hinv
      simp only [List.foldl_cons]
      exact ih (step s e) (fun x hx => hoks x (by simp [hx]))
        (step_preserves_inv s e (hoks e (by simp)) hinv)
  exact main events initState hok (fun hp => absurd hp (by decide))

theorem review_implies_result_witness :
    (runTrace [.uploadFile "/tmp/scan2.pdf",
      .extractData (fun _ _ => .ok "\x7b\"total\": 7\x7d")]).result ≠ none := by
  apply review_implies_result
  · intro e he
    simp only [List.mem_cons, List.not_mem_nil, or_false] at he
    rcases he with he | he
    · subst he; trivial
    · subst he
      intro prompt schema text htext
      have heq : "\x7b\"total\": 7\x7d" = text := by
        simpa using htext
      subst heq
      intro hcon
      rw [show loads "\x7b\"total\": 7\x7d"
          = some (.obj [("total", .num 7)]) from rfl] at hcon
      simp at hcon
  · rfl

/-! ### Claim C6: projecting a single mapping -/

/-- Claim C6: for every extraction result that is a mapping, the projector
produces exactly one row, nested mappings flattened into compound column
names joined by the underscore separator; in particular
\x7b"a": 1, "b": \x7b"c": 2\x7d\x7d yields one row with columns a and b_c
holding 1 and 2. -/
theorem project_single_mapping :
    (∀ kvs : List (String × Json), ∃ t : Table,
      projectResult (.obj kvs) = some t ∧ t.cells.length = 1)
    ∧ projectResult (.obj [("a", .num 1), ("b", .obj [("c", .num 2)])])
        = some (Table.mk ["a", "b_c"] [[some (.num 1), some (.num 2)]]) := by
  constructor
  · intro kvs
    have hdata : resultData (some (.obj kvs)) = .obj kvs := by
      cases kvs with
      | nil => rfl
      | cons kv rest => simp [resultData, pyTruthy]
    refine ⟨mkTable [flattenRecord kvs], ?_, ?_⟩
    · unfold projectResult
      rw [hdata]
      rfl
    · simp [mkTable]
  · simp [projectResult, resultData, pyTruthy, json_normalize, recordsFor,
      flattenRecord, n2rGo, dictUpdate, dictPop, dictInsert, dictGet,
      mkTable, dedupFirst, List.eraseP]

/-! ### Claim C7: projecting a sequence of mappings -/

/-- Claim C7 counterexample: the empty sequence is an extraction result
that is a sequence of mappings with zero elements, but the substitution
data = result or \x7b\x7d (src/app.py line 233) replaces it by the empty
mapping, so the projector yields one row, not zero rows. -/
theorem project_empty_sequence_counterexample :
    projectResult (.arr []) = some (Table.mk [] [[]])
    ∧ (Table.mk ([] : List String)
        [([] : List (Option Json))]).cells.length ≠ ([] : List Json).length := by
  constructor
  · simp [projectResult, resultData, pyTruthy, json_normalize, recordsFor,
      flattenRecord, n2rGo, mkTable, dedupFirst]
  · decide

theorem recordsOfList_length :
    ∀ (xs : List Json) (recs : List (List (String × Json))),
      recordsOfList xs = some recs → recs.length = xs.length := by
  intro xs
  induction xs with
  | nil =>
    intro recs h
    simp [recordsOfList] at h
    subst h
    rfl
  | cons x rest ih =>
    intro recs h
    cases x with
    | obj kvs =>
      simp only [recordsOfList] at h
      cases hr : recordsOfList rest with
      | none => rw [hr] at h; simp at h
      | some rs =>
        rw [hr] at h
        simp only [Option.map_some', Option.some.injEq] at h
        subst h
        simp [ih rs hr]
    | null => simp [recordsOfList] at h
    | bool b => simp [recordsOfList] at h
    | num n => simp [recordsOfList] at h
    | str s => simp [recordsOfList] at h
    | arr ys => simp [recordsOfList] at h

/-- Claim C7 (amended to non-empty sequences): for every non-empty
extraction result that is a sequence of mappings, the projector produces
one row per element, each element independently flattened, the column set
being the union across rows in order of first appearance with missing
cells empty (none); in particular [\x7b"x":1\x7d,\x7b"x":2,"y":3\x7d]
yields two rows over columns x, y with an empty y in the first row.  The
empty sequence instead projects as the empty mapping (one empty row), as
the counterexample records. -/
theorem project_sequence :
    (∀ (xs : List Json) (recs : List (List (String × Json))),
      xs ≠ [] → recordsOfList xs = some recs →
      projectResult (.arr xs) = some (mkTable recs)
        ∧ (mkTable recs).cells.length = xs.length)
    ∧ projectResult (.arr [.obj [("x", .num 1)],
        .obj [("x", .num 2), ("y", .num 3)]])
        = some (Table.mk ["x", "y"]
            [[some (.num 1), none], [some (.num 2), some (.num 3)]]) := by
  constructor
  · intro xs recs hne hrecs
    have hdata : resultData (some (.arr xs)) = .arr xs := by
      have ht : pyTruthy (.arr xs) = true := by
        simp [pyTruthy, hne]
      simp [resultData, ht]
    constructor
    · unfold projectResult
      rw [hdata]
      simp [json_normalize, recordsFor, hrecs]
    · simp only [mkTable]
      simp [recordsOfList_length xs recs hrecs]
  · simp [projectResult, resultData, pyTruthy, json_normalize, recordsFor,
      recordsOfList, flattenRecord, n2rGo, dictUpdate, dictPop, dictInsert,
      dictGet, mkTable, dedupFirst, List.eraseP]

theorem project_sequence_witness :
    projectResult (.arr [.obj [("k", .str "v")]])
      = some (mkTable [flattenRecord [("k", .str "v")]])
    ∧ (mkTable [flattenRecord [("k", .str "v")]]).cells.length
        = ([Json.obj [("k", .str "v")]] : List Json).length := by
  exact project_sequence.1 [.obj [("k", .str "v")]]
    [flattenRecord [("k", .str "v")]] (by simp) rfl

/-! ### Claim C8: the JSON export round trip -/

/-- Claim C8 counterexample: the JSON download serializes
data = result or \x7b\x7d (src/app.py lines 233 and 265), so the empty
sequence — an extraction result — is written out as the empty mapping and
does not survive the round trip. -/
theorem toJSON_falsy_counterexample :
    loads (downloadJSON (some (.arr []))) = some (.obj [])
    ∧ loads (downloadJSON (some (.arr []))) ≠ some (.arr []) := by
  constructor
  · rfl
  · intro h
    rw [show loads (downloadJSON (some (.arr []))) = some (.obj [])
      from rfl] at h
    simp at h

/-- Claim C8 (amended to truthy results): serializing any truthy
extraction result with the download's json.dumps(·, indent=2) and parsing
the output reproduces the result exactly; falsy results are replaced by
the empty mapping before serialization, as the counterexample records. -/
theorem toJSON_roundtrip_truthy (j : Json) (h : pyTruthy j = true) :
    loads (downloadJSON (some j)) = some j := by
  simp only [downloadJSON, resultData]
  rw [if_pos h]
  exact loads_dumps j

theorem toJSON_roundtrip_truthy_witness :
    pyTruthy (.obj [("total", .num 7), ("items", .arr [.str "a b"])]) = true
    ∧ loads (downloadJSON (some (.obj [("total", .num 7),
        ("items", .arr [.str "a b"])])))
        = some (.obj [("total", .num 7), ("items", .arr [.str "a b"])]) :=
  ⟨rfl, toJSON_roundtrip_truthy _ rfl⟩

/-! ### Claim C9: seeding default fields never aliases the catalog -/

theorem storeRead_write_other (σ : Store) (a b : Nat)
    (d : List (String × String)) (h : a ≠ b) :
    storeRead (storeWrite σ b d) a = storeRead σ a := by
  unfold storeRead storeWrite
  simp only
  congr 1
  induction σ.mem with
  | nil => rfl
  | cons q rest ih =>
    simp only [List.map_cons]
    by_cases hq : q.1 = b
    · rw [if_pos hq, List.find?_cons, List.find?_cons]
      have h1 : (decide ((b, d).1 = a)) = false := by
        simp only [decide_eq_false_iff_not]
        exact fun hc => h hc.symm
      have h2 : (decide (q.1 = a)) = false := by
        simp only [decide_eq_false_iff_not]
        exact fun hc => h (hc ▸ hq)
      simp only [h1, h2]
      exact ih
    · rw [if_neg hq, List.find?_cons, List.find?_cons]
      cases hp : decide (q.1 = a) <;> simp [hp, ih]

theorem applyWrites_cons (σ : Store) (w : Nat × List (String × String))
    (ws : List (Nat × List (String × String))) :
    applyWrites σ (w :: ws) = applyWrites (storeWrite σ w.1 w.2) ws := rfl

theorem applyWrites_read (ws : List (Nat × List (String × String))) :
    ∀ (σ : Store) (a : Nat), (∀ w ∈ ws, w.1 ≠ a) →
      storeRead (applyWrites σ ws) a = storeRead σ a := by
  induction ws with
  | nil => intro σ a _; rfl
  | cons w ws ih =>
    intro σ a hws
    rw [applyWrites_cons,
      ih (storeWrite σ w.1 w.2) a (fun x hx => hws x (by simp [hx])),
      storeRead_write_other σ a w.1 w.2 (fun hc => hws w (by simp) hc.symm)]

theorem applyWrites_wf (ws : List (Nat × List (String × String))) :
    ∀ σ : Store, storeWF σ → storeWF (applyWrites σ ws) := by
  induction ws with
  | nil => intro σ h; exact h
  | cons w ws ih =>
    intro σ h
    rw [applyWrites_cons]
    apply ih
    intro p hp
    unfold storeWrite at hp
    simp only [List.mem_map] at hp
    obtain ⟨q, hq, hpq⟩ := hp
    by_cases hqb : q.1 = w.1
    · rw [if_pos hqb] at hpq
      subst hpq
      simpa [← hqb] using h q hq
    · rw [if_neg hqb] at hpq
      subst hpq
      exact h q hq

theorem allocRows_spec (ds : List (List (String × String))) :
    ∀ (σ σ2 : Store) (addrs : List Nat),
      allocRows σ ds = (σ2, addrs) →
      (∀ a ∈ addrs, σ.nextAddr ≤ a)
      ∧ σ.nextAddr ≤ σ2.nextAddr
      ∧ (∀ a, a < σ.nextAddr → storeRead σ2 a = storeRead σ a)
      ∧ (storeWF σ → storeWF σ2)
      ∧ (storeWF σ → readRows σ2 addrs = ds.map some) := by
  induction ds with
  | nil =>
    intro σ σ2 addrs h
    unfold allocRows at h
    injection h with hA hB
    subst hA
    subst hB
    exact ⟨by simp, le_refl _, fun a _ => rfl, fun h => h, fun _ => rfl⟩
  | cons d ds ih =>
    intro σ σ2 addrs h
    unfold allocRows at h
    simp only at h
    cases halloc : allocRows
        { nextAddr := σ.nextAddr + 1, mem := σ.mem ++ [(σ.nextAddr, d)] } ds with
    | mk σ3 addrs3 =>
      rw [halloc] at h
      simp only at h
      injection h with hA hB
      subst hA
      subst hB
      obtain ⟨hge, hnext, hold, hwf, hread⟩ := ih _ _ _ halloc
      have hnext2 : σ.nextAddr + 1 ≤ σ3.nextAddr := hnext
      have hge2 : ∀ a ∈ addrs3, σ.nextAddr + 1 ≤ a := hge
      have hold2 : ∀ a, a < σ.nextAddr + 1 → storeRead σ3 a
          = storeRead { nextAddr := σ.nextAddr + 1,
                        mem := σ.mem ++ [(σ.nextAddr, d)] } a := hold
      have hwf1 : storeWF σ →
          storeWF { nextAddr := σ.nextAddr + 1,
                    mem := σ.mem ++ [(σ.nextAddr, d)] } := by
        intro hw p hp
        simp only [List.mem_append, List.mem_singleton] at hp
        rcases hp with hp | hp
        · have := hw p hp
          show p.1 < σ.nextAddr + 1
          omega
        · subst hp
          show σ.nextAddr < σ.nextAddr + 1
          omega
      have hmid : ∀ a, a < σ.nextAddr → storeRead
          { nextAddr := σ.nextAddr + 1, mem := σ.mem ++ [(σ.nextAddr, d)] } a
          = storeRead σ a := by
        intro a ha
        unfold storeRead
        simp only [List.find?_append]
        have hnone : List.find? (fun p => p.1 = a) [(σ.nextAddr, d)] = none := by
          simp only [List.find?_eq_none]
          intro x hx
          simp only [List.mem_singleton] at hx
          subst hx
          simp only [decide_eq_true_eq]
          omega
        rw [hnone]
        cases List.find? (fun p => p.1 = a) σ.mem <;> rfl
      refine ⟨?_, by omega, ?_, ?_, ?_⟩
      · intro a ha
        simp only [List.mem_cons] at ha
        rcases ha with ha | ha
        · omega
        · have := hge2 a ha
          omega
      · intro a ha
        rw [hold2 a (by omega), hmid a ha]
      · intro hw
        exact hwf (hwf1 hw)
      · intro hw
        show storeRead σ3 σ.nextAddr :: readRows σ3 addrs3
            = some d :: ds.map some
        have h1 : storeRead σ3 σ.nextAddr = some d := by
          rw [hold2 σ.nextAddr (by omega)]
          unfold storeRead
          simp only [List.find?_append]
          have hnone : List.find? (fun p => p.1 = σ.nextAddr) σ.mem = none := by
            simp only [List.find?_eq_none]
            intro x hx
            have := hw x hx
            simp only [decide_eq_true_eq]
            omega
          rw [hnone]
          simp
        rw [h1, hread (hwf1 hw)]

/-- Claim C9: seeding the default fields for a preset copies the catalog
into fresh row dicts; any sequence of mutations through the returned
addresses leaves the catalog contents (hence what a seeding call copies)
unchanged, and a subsequent seedDefaults call for the same preset returns
rows holding exactly the original built-in defaults. -/
theorem seedDefaults_no_alias (name : String) (σ1 : Store) (addrs : List Nat)
    (hseed : seedDefaults initStore name = some (σ1, addrs))
    (ws : List (Nat × List (String × String)))
    (hws : ∀ w ∈ ws, w.1 ∈ addrs) :
    seedContents (applyWrites σ1 ws) name = seedContents initStore name
    ∧ ∀ σ2 addrs2,
        seedDefaults (applyWrites σ1 ws) name = some (σ2, addrs2) →
        readRows σ2 addrs2 = ((seedContents initStore name).getD []).map some := by
  unfold seedDefaults at hseed
  cases hca : catalogAddr name with
  | none => rw [hca] at hseed; simp at hseed
  | some a =>
    rw [hca] at hseed
    simp only at hseed
    cases hrd : storeRead initStore a with
    | none => rw [hrd] at hseed; simp at hseed
    | some entries =>
      rw [hrd] at hseed
      simp only [Option.some.injEq] at hseed
      have halloc : allocRows initStore (rowContents entries) = (σ1, addrs) :=
        hseed
      obtain ⟨hge, _, hold, hwf, _⟩ := allocRows_spec _ _ _ _ halloc
      have hge2 : ∀ b ∈ addrs, 2 ≤ b := hge
      have hold2 : ∀ b, b < 2 → storeRead σ1 b = storeRead initStore b := hold
      have ha2 : a < 2 := by
        unfold catalogAddr at hca
        by_cases h1 : name = "Form"
        · rw [if_pos h1] at hca
          injection hca with hca2
          omega
        · rw [if_neg h1] at hca
          by_cases h2 : name = "Receipt"
          · rw [if_pos h2] at hca
            injection hca with hca2
            omega
          · rw [if_neg h2] at hca
            exact absurd hca (by simp)
      have hwsne : ∀ w ∈ ws, w.1 ≠ a := by
        intro w hw hc
        have := hge2 w.1 (hws w hw)
        omega
      have hcatread : storeRead (applyWrites σ1 ws) a = some entries := by
        rw [applyWrites_read ws σ1 a hwsne, hold2 a ha2, hrd]
      constructor
      · unfold seedContents
        rw [hca]
        simp only
        rw [hcatread, hrd]
      · intro σ2 addrs2 hseed2
        unfold seedDefaults at hseed2
        rw [hca] at hseed2
        simp only at hseed2
        rw [hcatread] at hseed2
        simp only [Option.some.injEq] at hseed2
        have halloc2 : allocRows (applyWrites σ1 ws) (rowContents entries)
            = (σ2, addrs2) := hseed2
        have hwfinit : storeWF initStore := by
          intro p hp
          simp only [initStore, List.mem_cons, List.not_mem_nil, or_false] at hp
          rcases hp with hp | hp <;> (subst hp; decide)
        have hwf2 : storeWF (applyWrites σ1 ws) :=
          applyWrites_wf ws σ1 (hwf hwfinit)
        obtain ⟨_, _, _, _, hread2⟩ := allocRows_spec _ _ _ _ halloc2
        rw [hread2 hwf2]
        unfold seedContents
        rw [hca]
        simp only
        rw [hrd]
        rfl

theorem seedDefaults_no_alias_witness :
    ∃ σ1 addrs, seedDefaults initStore "Form" = some (σ1, addrs)
      ∧ 2 ∈ addrs
      ∧ seedContents (applyWrites σ1 [(2, [("name", "HACKED")])]) "Form"
          = seedContents initStore "Form" := by
  cases hx : seedDefaults initStore "Form" with
  | none =>
    have hno : (seedDefaults initStore "Form").isNone = true := by
      rw [hx]
      rfl
    rw [show (seedDefaults initStore "Form").isNone = false from by decide]
      at hno
    exact absurd hno (by decide)
  | some p =>
    have haddrs : p.2 = [2, 3, 4, 5, 6, 7] := by
      have hmap := congrArg (Option.map Prod.snd) hx
      rw [show (seedDefaults initStore "Form").map Prod.snd
          = some [2, 3, 4, 5, 6, 7] from by decide] at hmap
      simpa using hmap.symm
    refine ⟨p.1, p.2, rfl, by rw [haddrs]; decide, ?_⟩
    exact (seedDefaults_no_alias "Form" p.1 p.2 hx
      [(2, [("name", "HACKED")])]
      (by
        intro w hw
        simp only [List.mem_singleton] at hw
        subst hw
        rw [haddrs]
        decide)).1

end DocuStruct


